import Mathlib

/-!
# Verification of the Graphos graphing-calculator core

Shallow embedding of `src/GraphingCalculator.js`: the expression parser
front end (`compileExpr`), the free-parameter detector (`detectParams`), the
line classifier (the `compiled` useMemo), the coordinate transform
(`makeTransform`), the grid step (`niceStep`), the bisection root refiner
(`bisectRoot`), golden-section extremum refinement (`goldenExtremum`), the
auto-analysis pass (the `analysis` useMemo) and `fitToData`.

Modelling conventions:
* JS numbers are modelled as real numbers where evaluation matters, and as
  rationals for the purely algebraic coordinate transform (the claim about it
  is stated over exact arithmetic).  A JS number that is `NaN` or `±Infinity`
  is modelled as `none : Option ℝ`; `Number.isFinite` is `Option.isSome`.
  This merges `NaN` with `±Infinity`, and it also merges an evaluation that
  throws with one that returns a non-finite value: the classifier treats the
  two identically except for the stored error string of a scalar line and the
  kept-default of a range bound, neither of which any claim inspects.
* Strings are processed as `List Char`; the handful of regular expressions in
  the source (`/^\s*y\s*=\s*(.+)$/i`, `/\br\s*=\s*([^,;]+)/i`, word-boundary
  tests, the double-inequality split) are implemented as the scans they
  denote, including the one-character give-back a greedy `\s*` performs when
  a following `+`-group would otherwise be empty.
-/

namespace Graphos

/-! ## Character and string helpers (JS `\s`, `\b`, `includes`, `indexOf`) -/

/-- JS `\s` for the characters that can occur in an expression line. -/
def isWs (c : Char) : Bool :=
  c = ' ' || c = '\t' || c = '\n' || c = '\r' || c = '\x0b' || c = '\x0c'

/-- JS word character `[A-Za-z0-9_]`, the class defining `\b` boundaries and
identifier continuation in `detectParams`. -/
def isWordChar (c : Char) : Bool :=
  ('a' ≤ c && c ≤ 'z') || ('A' ≤ c && c ≤ 'Z') || ('0' ≤ c && c ≤ '9') || c = '_'

/-- Identifier start `[A-Za-z_]`. -/
def isIdStart (c : Char) : Bool :=
  ('a' ≤ c && c ≤ 'z') || ('A' ≤ c && c ≤ 'Z') || c = '_'

def isDigit (c : Char) : Bool := '0' ≤ c && c ≤ '9'

/-- `String.prototype.trim`. -/
def trimL (s : List Char) : List Char :=
  ((s.dropWhile isWs).reverse.dropWhile isWs).reverse

/-- `src0.replace(/θ/g, "theta")` — every display glyph becomes the ASCII
name. -/
def replaceTheta (s : List Char) : List Char :=
  s.flatMap (fun c => if c = 'θ' then ['t', 'h', 'e', 't', 'a'] else [c])

/-- The classifier's normalized source: `(e.src || "").trim()` then the θ
replacement (GraphingCalculator.js:427-428). -/
def normSrc (s : String) : List Char := replaceTheta (trimL s.data)

/-- JS `String.prototype.includes(pat)`. -/
def containsSub (pat : List Char) : List Char → Bool
  | [] => pat.isEmpty
  | c :: rest => pat.isPrefixOf (c :: rest) || containsSub pat rest

/-- JS `String.prototype.indexOf(pat)` (‑1 becomes `none`). -/
def indexOfSub (pat : List Char) : List Char → Option Nat
  | [] => if pat.isEmpty then some 0 else none
  | c :: rest =>
    if pat.isPrefixOf (c :: rest) then some 0
    else (indexOfSub pat rest).map (· + 1)

/-- Does `pat` occur at a position with word boundaries on both sides?  This
is `/\bpat\b/.test(s)` for a `pat` made of word characters (`x`, `y`, `t`,
`theta`). -/
def isolatedAux (pat : List Char) (prev : Option Char) : List Char → Bool
  | [] => false
  | c :: rest =>
    (pat.isPrefixOf (c :: rest)
      && (match prev with | none => true | some p => !isWordChar p)
      && (match (c :: rest).drop pat.length with
          | [] => true
          | d :: _ => !isWordChar d))
    || isolatedAux pat (some c) rest

def isolated (pat : List Char) (s : List Char) : Bool := isolatedAux pat none s

/-- JS `split(sep)` for a one-character separator (`split(",")`,
`split("=")`). -/
def splitChar (sep : Char) (s : List Char) : List (List Char) :=
  match s with
  | [] => [[]]
  | c :: rest =>
    let r := splitChar sep rest
    if c = sep then [] :: r
    else match r with
      | [] => [[c]]
      | h :: t => (c :: h) :: t

/-! ## Tokenizer and recursive-descent parser for `compileExpr`

The source hands the text to `expr-eval`'s `Parser` (GraphingCalculator.js:69,
122) configured with constants `pi, e, tau, phi` and a function registry.
We embed the arithmetic fragment the calculator's lines use: decimal
numbers, identifiers, function calls, `+ - * / ^`, unary minus and
parentheses, with the usual precedence and a right-associative `^`.
Any other character (including `=`, `<`, `[`) is a parse error, as it is for
`expr-eval` in an expression position. -/

inductive Tok where
  | num (q : ℚ)
  | ident (s : String)
  | plus | minus | star | slash | caret | lparen | rparen | comma
  deriving DecidableEq, Repr

/-- The natural number denoted by a digit run. -/
def digitsVal (l : List Char) : ℕ :=
  l.foldl (fun a c => a * 10 + (c.toNat - '0'.toNat)) 0

/-- Read a decimal literal `digits ('.' digits)?` starting at the head. -/
def readNumber (s : List Char) : ℚ × List Char :=
  let intPart := s.takeWhile isDigit
  let rest := s.dropWhile isDigit
  match rest with
  | '.' :: r2 =>
    let fracPart := r2.takeWhile isDigit
    let r3 := r2.dropWhile isDigit
    (((digitsVal intPart : ℕ) : ℚ)
      + ((digitsVal fracPart : ℕ) : ℚ) / (10 : ℚ) ^ fracPart.length, r3)
  | _ => (((digitsVal intPart : ℕ) : ℚ), rest)

def tokenizeAux : Nat → List Char → Option (List Tok)
  | 0, _ => none
  | _, [] => some []
  | fuel + 1, c :: rest =>
    if isWs c then tokenizeAux fuel rest
    else if isDigit c then
      let (q, r) := readNumber (c :: rest)
      (tokenizeAux fuel r).map (Tok.num q :: ·)
    else if isIdStart c then
      let name := (c :: rest).takeWhile isWordChar
      let r := (c :: rest).dropWhile isWordChar
      (tokenizeAux fuel r).map (Tok.ident (String.mk name) :: ·)
    else
      let tok? : Option Tok :=
        if c = '+' then some .plus else if c = '-' then some .minus
        else if c = '*' then some .star else if c = '/' then some .slash
        else if c = '^' then some .caret else if c = '(' then some .lparen
        else if c = ')' then some .rparen else if c = ',' then some .comma
        else none
      match tok? with
      | some t => (tokenizeAux fuel rest).map (t :: ·)
      | none => none

def tokenize (s : List Char) : Option (List Tok) := tokenizeAux (s.length + 1) s

/-- The compiled expression AST (`expr-eval`'s parse tree, restricted to the
arithmetic fragment). -/
inductive Expr where
  | num (q : ℚ)
  | var (name : String)
  | neg (a : Expr)
  | add (a b : Expr)
  | sub (a b : Expr)
  | mul (a b : Expr)
  | div (a b : Expr)
  | pow (a b : Expr)
  | call (fname : String) (args : List Expr)
  deriving Repr

mutual

/-- Additive level: `term (('+'|'-') term)*`. -/
def parseAdd : Nat → List Tok → Option (Expr × List Tok)
  | 0, _ => none
  | fuel + 1, ts => do
    let (e, r) ← parseMul fuel ts
    parseAddRest fuel e r

def parseAddRest : Nat → Expr → List Tok → Option (Expr × List Tok)
  | 0, _, _ => none
  | fuel + 1, e, ts =>
    match ts with
    | .plus :: r => do
      let (e2, r2) ← parseMul fuel r
      parseAddRest fuel (.add e e2) r2
    | .minus :: r => do
      let (e2, r2) ← parseMul fuel r
      parseAddRest fuel (.sub e e2) r2
    | _ => some (e, ts)

/-- Multiplicative level: `factor (('*'|'/') factor)*`. -/
def parseMul : Nat → List Tok → Option (Expr × List Tok)
  | 0, _ => none
  | fuel + 1, ts => do
    let (e, r) ← parseUnary fuel ts
    parseMulRest fuel e r

def parseMulRest : Nat → Expr → List Tok → Option (Expr × List Tok)
  | 0, _, _ => none
  | fuel + 1, e, ts =>
    match ts with
    | .star :: r => do
      let (e2, r2) ← parseUnary fuel r
      parseMulRest fuel (.mul e e2) r2
    | .slash :: r => do
      let (e2, r2) ← parseUnary fuel r
      parseMulRest fuel (.div e e2) r2
    | _ => some (e, ts)

/-- Unary minus binds looser than `^` (expr-eval: `-2^2 = -(2^2)`). -/
def parseUnary : Nat → List Tok → Option (Expr × List Tok)
  | 0, _ => none
  | fuel + 1, ts =>
    match ts with
    | .minus :: r => do
      let (e, r2) ← parseUnary fuel r
      some (.neg e, r2)
    | _ => parsePow fuel ts

/-- Power level, right associative: `atom ('^' unary)?`. -/
def parsePow : Nat → List Tok → Option (Expr × List Tok)
  | 0, _ => none
  | fuel + 1, ts => do
    let (e, r) ← parseAtom fuel ts
    match r with
    | .caret :: r2 => do
      let (e2, r3) ← parseUnary fuel r2
      some (.pow e e2, r3)
    | _ => some (e, r)

def parseAtom : Nat → List Tok → Option (Expr × List Tok)
  | 0, _ => none
  | fuel + 1, ts =>
    match ts with
    | .num q :: r => some (.num q, r)
    | .ident n :: .lparen :: r => do
      let (args, r2) ← parseArgs fuel r
      some (.call n args, r2)
    | .ident n :: r => some (.var n, r)
    | .lparen :: r => do
      let (e, r2) ← parseAdd fuel r
      match r2 with
      | .rparen :: r3 => some (e, r3)
      | _ => none
    | _ => none

/-- Argument list after `f(`, up to and including the closing `)`. -/
def parseArgs : Nat → List Tok → Option (List Expr × List Tok)
  | 0, _ => none
  | fuel + 1, ts =>
    match ts with
    | .rparen :: r => some ([], r)
    | _ => do
      let (e, r) ← parseAdd fuel ts
      parseArgsRest fuel [e] r

def parseArgsRest : Nat → List Expr → List Tok → Option (List Expr × List Tok)
  | 0, _, _ => none
  | fuel + 1, acc, ts =>
    match ts with
    | .comma :: r => do
      let (e, r2) ← parseAdd fuel r
      parseArgsRest fuel (acc ++ [e]) r2
    | .rparen :: r => some (acc, r)
    | _ => none

end

/-- `compileExpr(src)`'s parse step: `Except` so the classifier can attach the
message of a failed compile (`err?.message || "Parse error"`; we use the
fallback text). -/
def parseEx (s : List Char) : Except String Expr :=
  match tokenize s with
  | none => .error "Parse error"
  | some ts =>
    match parseAdd (3 * ts.length + 3) ts with
    | some (e, []) => .ok e
    | _ => .error "Parse error"

end Graphos

namespace Graphos

/-! ## `detectParams` (GraphingCalculator.js:125-140)

The regex `/[A-Za-z_][A-Za-z0-9_]*/g` scans successive identifiers; every
name not in `RESERVED` is collected into an insertion-ordered set. -/

def RESERVED : List String :=
  ["x", "y", "t", "theta", "ans", "pi", "e", "tau", "phi",
   "sin", "cos", "tan", "asin", "acos", "atan", "atan2", "abs", "log", "ln",
   "exp", "sqrt", "random",
   "min", "max", "round", "floor", "ceil", "trunc", "sign", "sgn", "if",
   "mod", "pow",
   "sec", "csc", "cot", "sech", "csch", "coth",
   "sinh", "cosh", "tanh", "asinh", "acosh", "atanh",
   "sind", "cosd", "tand", "asind", "acosd", "atand", "deg", "rad",
   "log10", "log2", "logb",
   "piecewise", "clamp", "lerp", "heaviside", "step",
   "fact", "factorial", "nCr", "nPr"]

def scanIdsAux : Nat → List Char → List String
  | 0, _ => []
  | _, [] => []
  | fuel + 1, c :: rest =>
    if isIdStart c then
      let name := (c :: rest).takeWhile isWordChar
      let r := (c :: rest).dropWhile isWordChar
      String.mk name :: scanIdsAux fuel r
    else scanIdsAux fuel rest

def dedupKeepFirst : List String → List String → List String
  | _, [] => []
  | seen, n :: rest =>
    if seen.contains n then dedupKeepFirst seen rest
    else n :: dedupKeepFirst (n :: seen) rest

def detectParams (s : List Char) : List String :=
  dedupKeepFirst [] ((scanIdsAux (s.length + 1) s).filter (fun n => !RESERVED.contains n))

/-! ## The classifier's string scans (the regexes of the `compiled` useMemo) -/

/-- `src.match(/^\s*y\s*=\s*(.+)$/i)` — leading whitespace, `y`/`Y`,
whitespace, `=`, whitespace, then a non-empty remainder.  A greedy `\s*`
followed by `(.+)` gives one whitespace character back when the remainder
would otherwise be empty. -/
def matchYeq (s : List Char) : Option (List Char) :=
  match s.dropWhile isWs with
  | c :: rest =>
    if c = 'y' || c = 'Y' then
      match rest.dropWhile isWs with
      | '=' :: r3 =>
        let body := r3.dropWhile isWs
        if body.isEmpty then
          match r3.reverse with
          | last :: _ => some [last]
          | [] => none
        else some body
      | _ => none
    else none
  | [] => none

/-- One attempt of `/\br\s*=\s*([^,;]+)/i` at the head of `l` (whose previous
character is `prev`): `r`/`R` with a word boundary before it, `\s*=\s*`, then
a non-empty run not containing `,` or `;` (with the same whitespace
give-back). -/
def polarTryAt (prev : Option Char) (l : List Char) : Option (List Char) :=
  match l with
  | c :: rest =>
    if (c = 'r' || c = 'R')
        && (match prev with | none => true | some p => !isWordChar p) then
      match rest.dropWhile isWs with
      | '=' :: r2 =>
        let cap := (r2.dropWhile isWs).takeWhile (fun d => !(d = ',' || d = ';'))
        if cap.isEmpty then
          match (r2.takeWhile isWs).reverse with
          | last :: _ => some [last]
          | [] => none
        else some cap
      | _ => none
    else none
  | [] => none

def polarCaptureAux (prev : Option Char) : List Char → Option (List Char)
  | [] => none
  | c :: rest =>
    match polarTryAt prev (c :: rest) with
    | some cap => some cap
    | none => polarCaptureAux (some c) rest

/-- `src.match(/\br\s*=\s*([^,;]+)/i)`, returning the capture. -/
def polarCapture (s : List Char) : Option (List Char) := polarCaptureAux none s

def toLowerList (s : List Char) : List Char := s.map Char.toLower

/-- One attempt of the polar range regex
`/theta\s*(?:in|=)\s*\[\s*([^,\]]+)\s*,\s*([^\]]+)\s*\]/i` at the head of
`l`. -/
def thetaRangeTryAt (l : List Char) : Option (List Char × List Char) :=
  if (toLowerList (l.take 5)) = ['t', 'h', 'e', 't', 'a'] then
    let afterKw := (l.drop 5).dropWhile isWs
    let afterIn : Option (List Char) :=
      match afterKw with
      | '=' :: r => some r
      | c1 :: c2 :: r =>
        if (c1.toLower = 'i' && c2.toLower = 'n') then some r else none
      | _ => none
    match afterIn with
    | none => none
    | some r0 =>
      match r0.dropWhile isWs with
      | '[' :: r1 =>
        let ws1 := r1.takeWhile isWs
        let t1 := r1.dropWhile isWs
        let cap1 := t1.takeWhile (fun d => !(d = ',' || d = ']'))
        let cap1 := if cap1.isEmpty then (ws1.reverse.take 1) else cap1
        if cap1.isEmpty then none
        else
          match t1.dropWhile (fun d => !(d = ',' || d = ']')) with
          | ',' :: r2 =>
            let ws2 := r2.takeWhile isWs
            let t2 := r2.dropWhile isWs
            let cap2 := t2.takeWhile (fun d => !(d = ']'))
            let cap2 := if cap2.isEmpty then (ws2.reverse.take 1) else cap2
            if cap2.isEmpty then none
            else
              match t2.dropWhile (fun d => !(d = ']')) with
              | ']' :: _ => some (cap1, cap2)
              | _ => none
          | _ => none
      | _ => none
  else none

def findThetaRangeAux : Nat → List Char → Option (List Char × List Char)
  | 0, _ => none
  | _, [] => none
  | fuel + 1, c :: rest =>
    match thetaRangeTryAt (c :: rest) with
    | some caps => some caps
    | none => findThetaRangeAux fuel rest

/-- `src.match(/theta\s*(?:in|=)\s*\[...\]/i)`, returning both captures. -/
def findThetaRange (s : List Char) : Option (List Char × List Char) :=
  findThetaRangeAux (s.length + 1) s

/-- The two compiled range bounds of a polar line: `none` means the default
is kept (no range clause, or the bound failed to compile). -/
def polarBounds (s : List Char) : Option Expr × Option Expr :=
  match findThetaRange s with
  | none => (none, none)
  | some (a, b) => ((parseEx a).toOption, (parseEx b).toOption)

/-- `/^t\s*=\s*\[/.test(p)` for a parametric range part. -/
def startsTEqBracket (p : List Char) : Bool :=
  match p with
  | 't' :: rest =>
    match rest.dropWhile isWs with
    | '=' :: r2 =>
      match r2.dropWhile isWs with
      | '[' :: _ => true
      | _ => false
    | _ => false
  | _ => false

/-- The parametric branch's comma split (GraphingCalculator.js:470-483):
`src.replace(/;/g, ",").split(",").map(trim)`, then a fold collecting the
last `x=` part, the last `y=` part, and the range-bound expressions from any
`t=[...]` part whose `[` and `]` both survive the split (`indexOf` flavored:
`lb < rb` required; a bound that fails to compile keeps the previous
value). -/
def parametricParts (s : List Char) :
    Option (List Char) × Option (List Char) × Option Expr × Option Expr :=
  let parts := (splitChar ',' (s.map (fun c => if c = ';' then ',' else c))).map trimL
  parts.foldl
    (fun (acc : Option (List Char) × Option (List Char) × Option Expr × Option Expr) p =>
      let (xP, yP, tb1, tb2) := acc
      if ['x', '='].isPrefixOf p then (some (p.drop 2), yP, tb1, tb2)
      else if ['y', '='].isPrefixOf p then (xP, some (p.drop 2), tb1, tb2)
      else if startsTEqBracket p then
        match indexOfSub ['['] p, indexOfSub [']'] p with
        | some lb, some rb =>
          if lb < rb then
            let inner := (p.drop (lb + 1)).take (rb - (lb + 1))
            let bits := splitChar ',' inner
            let tb1' := match bits.head? with
              | some a => match parseEx a with | .ok ast => some ast | .error _ => tb1
              | none => tb1
            let tb2' := match bits[1]? with
              | some b => match parseEx b with | .ok ast => some ast | .error _ => tb2
              | none => tb2
            (xP, yP, tb1', tb2')
          else acc
        | _, _ => acc
      else acc)
    (none, none, none, none)

/-- JS truthiness of a captured part: `null` and `""` are both falsy. -/
def truthyPart : Option (List Char) → Bool
  | none => false
  | some l => !l.isEmpty

/-- The comparison-operator scan shared by the double-inequality regex: at
each position try, in alternation order, `<=`, `>=`, `<`, `>`, `≤`, `≥`;
return `(before, op, after)` for the leftmost match. -/
def findOpScanAux : List Char → List Char → Option (List Char × List Char × List Char)
  | _, [] => none
  | pre, c :: rest =>
    if c = '<' then
      match rest with
      | '=' :: r2 => some (pre.reverse, ['<', '='], r2)
      | _ => some (pre.reverse, ['<'], rest)
    else if c = '>' then
      match rest with
      | '=' :: r2 => some (pre.reverse, ['>', '='], r2)
      | _ => some (pre.reverse, ['>'], rest)
    else if c = '≤' then some (pre.reverse, ['≤'], rest)
    else if c = '≥' then some (pre.reverse, ['≥'], rest)
    else findOpScanAux (c :: pre) rest

def findOpScan (s : List Char) : Option (List Char × List Char × List Char) :=
  findOpScanAux [] s

/-- `src.match(/^(.*?)(<=|>=|<|>|≤|≥)(.*?)(<=|>=|<|>|≤|≥)(.*)$/)`: the two
leftmost comparison operators with the three complementary slices. -/
def findDouble (s : List Char) :
    Option (List Char × List Char × List Char × List Char × List Char) :=
  match findOpScan s with
  | none => none
  | some (a, op1, r1) =>
    match findOpScan r1 with
    | none => none
    | some (b, op2, c) => some (a, op1, b, op2, c)

/-- The single-inequality candidate (GraphingCalculator.js:514): each operator
of `["<=", ">=", "<", ">", "≤", "≥"]` is looked up with `indexOf`, the found
ones are stably sorted by index and the first is taken. -/
def findCmp (s : List Char) : Option (List Char × Nat) :=
  let ops : List (List Char) := [['<', '='], ['>', '='], ['<'], ['>'], ['≤'], ['≥']]
  let cands := ops.filterMap (fun o => (indexOfSub o s).map (fun i => (o, i)))
  cands.foldl
    (fun best c => match best with
      | none => some c
      | some b => if c.2 < b.2 then some c else some b)
    none

/-- `norm` (GraphingCalculator.js:417) and the inline ternary of the single
inequality branch (line 518) — both map `≤`/`<=` to `le`, `≥`/`>=` to `ge`,
`<` to `lt` and anything else to `gt`. -/
def normOp (op : List Char) : String :=
  if op = ['≤'] || op = ['<', '='] then "le"
  else if op = ['≥'] || op = ['>', '='] then "ge"
  else if op = ['<'] then "lt"
  else "gt"

end Graphos

namespace Graphos

/-! ## Evaluation semantics (`Expression.evaluate` with the registry of
`compileExpr`, GraphingCalculator.js:69-123)

`none` stands for a non-finite result or an evaluation exception.  The
environment is looked up first (the bindings object), then the parser
constants. -/

noncomputable def constVal : String → Option ℝ
  | "pi" => some Real.pi
  | "e" => some (Real.exp 1)
  | "tau" => some (2 * Real.pi)
  | "phi" => some ((1 + Real.sqrt 5) / 2)
  | _ => none

/-- `Math.pow` / expr-eval `^`: integer exponents act on any base (zero base
needs a non-negative exponent), non-integer exponents need a positive base
(zero base with positive exponent gives 0; a negative base gives NaN). -/
noncomputable def evalPow (a b : ℝ) : Option ℝ :=
  haveI := Classical.propDecidable (∃ n : ℤ, (n : ℝ) = b)
  if hb : ∃ n : ℤ, (n : ℝ) = b then
    if a = 0 ∧ b < 0 then none else some (a ^ hb.choose)
  else if 0 < a then some (Real.rpow a b)
  else if a = 0 then (if 0 < b then some 0 else none)
  else none

/-- The function registry, restricted to the single- and two-argument
functions a graphed line can mention; any other call is an evaluation
error (`none`).  Domain errors follow `Math.*`: `sqrt` of a negative and
`log` of a non-positive are non-finite. -/
noncomputable def applyFn : String → List ℝ → Option ℝ
  | "sin", [x] => some (Real.sin x)
  | "cos", [x] => some (Real.cos x)
  | "tan", [x] => some (Real.tan x)
  | "abs", [x] => some |x|
  | "sqrt", [x] => if x < 0 then none else some (Real.sqrt x)
  | "exp", [x] => some (Real.exp x)
  | "ln", [x] => if x ≤ 0 then none else some (Real.log x)
  | "log", [x] => if x ≤ 0 then none else some (Real.log x)
  | "sinh", [x] => some (Real.sinh x)
  | "cosh", [x] => some (Real.cosh x)
  | "tanh", [x] => some (Real.tanh x)
  | "sgn", [x] => some (if x < 0 then -1 else if x = 0 then 0 else 1)
  | "min", [x, y] => some (min x y)
  | "max", [x, y] => some (max x y)
  | "atan2", [x, y] => some (Real.arctan (x / y))
  | _, _ => none

mutual

noncomputable def evalE (env : String → Option ℝ) : Expr → Option ℝ
  | .num q => some (q : ℝ)
  | .var n =>
    (match env n with
     | some v => some v
     | none => constVal n)
  | .neg a => (evalE env a).map (fun x => -x)
  | .add a b =>
    (match evalE env a, evalE env b with
     | some x, some y => some (x + y)
     | _, _ => none)
  | .sub a b =>
    (match evalE env a, evalE env b with
     | some x, some y => some (x - y)
     | _, _ => none)
  | .mul a b =>
    (match evalE env a, evalE env b with
     | some x, some y => some (x * y)
     | _, _ => none)
  | .div a b =>
    (match evalE env a, evalE env b with
     | some x, some y => if y = 0 then none else some (x / y)
     | _, _ => none)
  | .pow a b =>
    (match evalE env a, evalE env b with
     | some x, some y => evalPow x y
     | _, _ => none)
  | .call f args =>
    (match evalArgs env args with
     | some vs => applyFn f vs
     | none => none)

noncomputable def evalArgs (env : String → Option ℝ) : List Expr → Option (List ℝ)
  | [] => some []
  | e :: rest =>
    (match evalE env e, evalArgs env rest with
     | some v, some vs => some (v :: vs)
     | _, _ => none)

end

/-! ## The classifier (the `compiled` useMemo, GraphingCalculator.js:416-567)

`classify` performs the branch decision and every compile of the chosen
branch; evaluation (scalar values, range bounds, the stored closures) is
added by `completeLine`.  The branch chain mirrors the source's order:
`y=` explicit, polar, parametric, double inequality, single inequality,
implicit, calculator scalar, explicit fallback. -/

inductive Classified where
  | explicitB (r : Except String Expr)
  | polarB (r : Except String (Expr × Option Expr × Option Expr))
  | parametricB (r : Except String (Expr × Expr × Option Expr × Option Expr))
  | doubleB (r : Except String (Expr × String × Expr × String × Expr))
  | ineqB (r : Except String (Expr × Expr)) (op : String)
  | implicitB (r : Except String (Expr × Expr))
  | scalarB (r : Except String Expr)
  | fallbackB (r : Except String Expr)

/-- Calculator line vs. explicit fallback (lines 543-564): a scalar line has
no isolated `x`, `y`, `t`, `theta` and no `=`. -/
def classifyScalar (s : List Char) : Classified :=
  if !(isolated ['x'] s) && !(isolated ['y'] s) && !(isolated ['t'] s)
      && !(isolated ['t', 'h', 'e', 't', 'a'] s) && !(containsSub ['='] s) then
    .scalarB (parseEx s)
  else .fallbackB (parseEx s)

/-- Implicit equality (lines 529-540): `=` present with isolated `x` and `y`;
more than one `=` is the classification error of the source. -/
def classifyImplicit (s : List Char) : Classified :=
  if containsSub ['='] s && isolated ['x'] s && isolated ['y'] s then
    match splitChar '=' s with
    | [l, r] =>
      (match parseEx l with
       | .error m => .implicitB (.error m)
       | .ok L =>
         match parseEx r with
         | .error m => .implicitB (.error m)
         | .ok R => .implicitB (.ok (L, R)))
    | _ => .implicitB (.error "Only one \x27=\x27 allowed")
  else classifyScalar s

/-- Single inequality (lines 513-526). -/
def classifySingle (s : List Char) : Classified :=
  match findCmp s with
  | some (o, i) =>
    (match parseEx (s.take i) with
     | .error m => .ineqB (.error m) (normOp o)
     | .ok L =>
       match parseEx (s.drop (i + o.length)) with
       | .error m => .ineqB (.error m) (normOp o)
       | .ok R => .ineqB (.ok (L, R)) (normOp o))
  | none => classifyImplicit s

/-- Double inequality (lines 497-511). -/
def classifyDouble (s : List Char) : Classified :=
  match findDouble s with
  | some (a, o1, b, o2, c) =>
    (match parseEx a with
     | .error m => .doubleB (.error m)
     | .ok A =>
       match parseEx b with
       | .error m => .doubleB (.error m)
       | .ok B =>
         match parseEx c with
         | .error m => .doubleB (.error m)
         | .ok C => .doubleB (.ok (A, normOp o1, B, normOp o2, C)))
  | none => classifySingle s

/-- Parametric (lines 467-495): the `x=`/`y=`/`t` test chooses the branch,
but when the split yields no truthy `x=` or `y=` part the source falls out of
the `if` without pushing and the next branch decides. -/
def classifyParametric (s : List Char) : Classified :=
  if containsSub ['x', '='] s && containsSub ['y', '='] s && isolated ['t'] s then
    let (xP, yP, tb1, tb2) := parametricParts s
    if truthyPart xP && truthyPart yP then
      match parseEx (xP.getD []) with
      | .error m => .parametricB (.error m)
      | .ok ax =>
        (match parseEx (yP.getD []) with
         | .error m => .parametricB (.error m)
         | .ok ay => .parametricB (.ok (ax, ay, tb1, tb2)))
    else classifyDouble s
  else classifyDouble s

/-- Polar (lines 448-465): `r = ...` capture plus isolated `theta`. -/
def classifyPolar (s : List Char) : Classified :=
  match polarCapture s with
  | some cap =>
    if isolated ['t', 'h', 'e', 't', 'a'] s then
      match parseEx cap with
      | .error m => .polarB (.error m)
      | .ok ar =>
        let (b1, b2) := polarBounds s
        .polarB (.ok (ar, b1, b2))
    else classifyParametric s
  | none => classifyParametric s

/-- The full decision chain on the normalized source. -/
def classify (s : List Char) : Classified :=
  match matchYeq s with
  | some body => .explicitB (parseEx body)
  | none => classifyPolar s

end Graphos

namespace Graphos

/-! ## Branch selection as a pure string function

`selectBranch` repeats the classifier's tests — and nothing else: no parse,
no compile.  Claim C5 relates it to the classifier: the kind of a compiled
line is decided by these string tests alone, so a compile failure can never
hand the line to a later branch. -/

inductive BranchTag where
  | explicitT | polarT | parametricT | doubleT | ineqT | implicitT | scalarT | fallbackT
  deriving DecidableEq

def selectBranchScalar (s : List Char) : BranchTag :=
  if !(isolated ['x'] s) && !(isolated ['y'] s) && !(isolated ['t'] s)
      && !(isolated ['t', 'h', 'e', 't', 'a'] s) && !(containsSub ['='] s) then
    .scalarT
  else .fallbackT

def selectBranchImplicit (s : List Char) : BranchTag :=
  if containsSub ['='] s && isolated ['x'] s && isolated ['y'] s then .implicitT
  else selectBranchScalar s

def selectBranchSingle (s : List Char) : BranchTag :=
  match findCmp s with
  | some _ => .ineqT
  | none => selectBranchImplicit s

def selectBranchDouble (s : List Char) : BranchTag :=
  match findDouble s with
  | some _ => .doubleT
  | none => selectBranchSingle s

def selectBranchParametric (s : List Char) : BranchTag :=
  if containsSub ['x', '='] s && containsSub ['y', '='] s && isolated ['t'] s then
    let (xP, yP, _, _) := parametricParts s
    if truthyPart xP && truthyPart yP then .parametricT else selectBranchDouble s
  else selectBranchDouble s

def selectBranchPolar (s : List Char) : BranchTag :=
  match polarCapture s with
  | some _ =>
    if isolated ['t', 'h', 'e', 't', 'a'] s then .polarT else selectBranchParametric s
  | none => selectBranchParametric s

def selectBranch (s : List Char) : BranchTag :=
  match matchYeq s with
  | some _ => .explicitT
  | none => selectBranchPolar s

/-- The `kind` string each branch pushes; the fallback pushes `"explicit"`. -/
def branchKindStr : BranchTag → String
  | .explicitT => "explicit"
  | .polarT => "polar"
  | .parametricT => "parametric"
  | .doubleT => "double-ineq"
  | .ineqT => "inequality"
  | .implicitT => "implicit"
  | .scalarT => "scalar"
  | .fallbackT => "explicit"

/-- The branch a classification belongs to (forgetting payloads). -/
def classifyTag : Classified → BranchTag
  | .explicitB _ => .explicitT
  | .polarB _ => .polarT
  | .parametricB _ => .parametricT
  | .doubleB _ => .doubleT
  | .ineqB _ _ => .ineqT
  | .implicitB _ => .implicitT
  | .scalarB _ => .scalarT
  | .fallbackB _ => .fallbackT

/-! ## Expression entries and compiled lines -/

/-- A user-authored expression line (the elements of the `expressions`
state, GraphingCalculator.js:411-413). -/
structure Entry where
  id : Nat := 0
  src : String
  color : String := ""
  visible : Bool := true
  params : List (String × ℝ) := []
  domainUse : Bool := false
  domainMin : ℝ := -10
  domainMax : ℝ := 10
  includeIntersect : Bool := true

/-- One element of the `compiled` array: the entry's fields spread together
with the branch's kind-specific payload.  Unused fields keep their defaults,
as the absent JS properties would. -/
structure CompiledLine where
  entry : Entry
  kind : String
  fn : Option (ℝ → Option ℝ) := none
  fr : Option (ℝ → Option ℝ) := none
  thmin : Option ℝ := none
  thmax : Option ℝ := none
  fx : Option (ℝ → Option ℝ) := none
  fy : Option (ℝ → Option ℝ) := none
  tmin : Option ℝ := none
  tmax : Option ℝ := none
  F : Option (ℝ → ℝ → Option ℝ) := none
  op : String := ""
  F1 : Option (ℝ → ℝ → Option ℝ) := none
  op1 : String := ""
  F2 : Option (ℝ → ℝ → Option ℝ) := none
  op2 : String := ""
  value : Option ℝ := none
  params : List (String × ℝ) := []
  paramNames : List String := []
  error : String := ""

/-- Association-list lookup for a parameter binding object. -/
def lookupA (l : List (String × ℝ)) (n : String) : Option ℝ :=
  (l.find? (fun p => p.1 == n)).map (·.2)

/-- `{...baseParams, ...(e.params || {})}` (line 425-426): every detected
name defaults to 1, user-set values win, and user keys outside the detected
set survive. -/
def mergeParams (names : List String) (user : List (String × ℝ)) : List (String × ℝ) :=
  names.map (fun n => (n, (lookupA user n).getD 1)) ++
    user.filter (fun p => !names.contains p.1)

/-- The binding object `{...params, ans}`. -/
def envOf (params : List (String × ℝ)) (ans : ℝ) : String → Option ℝ :=
  fun n => if n = "ans" then some ans else lookupA params n

/-- Adding one later spread key (`x`, `y`, `t` or `theta`). -/
def bindVar (name : String) (v : ℝ) (env : String → Option ℝ) : String → Option ℝ :=
  fun n => if n = name then some v else env n

/-- `L.evaluate(env) - R.evaluate(env)` with exception propagation. -/
noncomputable def diffEval (L R : Expr) (env : String → Option ℝ) : Option ℝ :=
  match evalE env L, evalE env R with
  | some a, some b => some (a - b)
  | _, _ => none

/-- One loop iteration of the `compiled` useMemo: classify the line, build
its compiled payload, and return the updated running result.  Only a scalar
line with a finite value changes `ans` (line 548). -/
noncomputable def completeLine (e : Entry) (ans : ℝ) : CompiledLine × ℝ :=
  let names := detectParams e.src.data
  let params := mergeParams names e.params
  let env := envOf params ans
  let base : CompiledLine := { entry := e, kind := "", params := params, paramNames := names }
  match classify (normSrc e.src) with
  | .explicitB (.ok ast) =>
    ({ base with
        kind := "explicit",
        fn := some (fun x => evalE (bindVar "x" x env) ast) }, ans)
  | .explicitB (.error m) => ({ base with kind := "explicit", error := m }, ans)
  | .polarB (.ok (ar, b1, b2)) =>
    ({ base with
        kind := "polar",
        fr := some (fun th => evalE (bindVar "theta" th env) ar),
        thmin := (match b1 with | none => some 0 | some bAst => evalE env bAst),
        thmax := (match b2 with | none => some (2 * Real.pi) | some bAst => evalE env bAst) },
     ans)
  | .polarB (.error m) =>
    ({ base with
        kind := "polar",
        thmin := some 0,
        thmax := some (2 * Real.pi),
        error := m }, ans)
  | .parametricB (.ok (ax, ay, b1, b2)) =>
    ({ base with
        kind := "parametric",
        fx := some (fun t => evalE (bindVar "t" t env) ax),
        fy := some (fun t => evalE (bindVar "t" t env) ay),
        tmin := (match b1 with | none => some (-10) | some bAst => evalE env bAst),
        tmax := (match b2 with | none => some 10 | some bAst => evalE env bAst) }, ans)
  | .parametricB (.error m) =>
    ({ base with
        kind := "parametric",
        tmin := some (-10),
        tmax := some 10,
        error := m }, ans)
  | .doubleB (.ok (A, o1, B, o2, C)) =>
    ({ base with
        kind := "double-ineq",
        F1 := some (fun x y => diffEval A B (bindVar "y" y (bindVar "x" x env))),
        op1 := o1,
        F2 := some (fun x y => diffEval B C (bindVar "y" y (bindVar "x" x env))),
        op2 := o2 }, ans)
  | .doubleB (.error m) =>
    ({ base with
        kind := "double-ineq",
        op1 := "le",
        op2 := "le",
        error := m }, ans)
  | .ineqB (.ok (L, R)) op =>
    ({ base with
        kind := "inequality",
        F := some (fun x y => diffEval L R (bindVar "y" y (bindVar "x" x env))),
        op := op }, ans)
  | .ineqB (.error m) _ =>
    ({ base with kind := "inequality", op := "le", error := m }, ans)
  | .implicitB (.ok (L, R)) =>
    ({ base with
        kind := "implicit",
        F := some (fun x y => diffEval L R (bindVar "y" y (bindVar "x" x env))) }, ans)
  | .implicitB (.error m) => ({ base with kind := "implicit", error := m }, ans)
  | .scalarB (.ok ast) =>
    (match evalE env ast with
     | some v => ({ base with kind := "scalar", value := some v }, v)
     | none => ({ base with kind := "scalar", value := none }, ans))
  | .scalarB (.error m) => ({ base with kind := "scalar", error := m }, ans)
  | .fallbackB (.ok ast) =>
    ({ base with
        kind := "explicit",
        fn := some (fun x => evalE (bindVar "x" x env) ast) }, ans)
  | .fallbackB (.error m) => ({ base with kind := "explicit", error := m }, ans)

/-- The loop of the `compiled` useMemo, threading the running result. -/
noncomputable def compileLines : List Entry → ℝ → List CompiledLine × ℝ
  | [], a => ([], a)
  | e :: rest, a =>
    let (l, a') := completeLine e a
    let (ls, a'') := compileLines rest a'
    (l :: ls, a'')

/-- `compiled` — the full derived array, with `ans` starting at 0
(line 420). -/
noncomputable def compiled (es : List Entry) : List CompiledLine :=
  (compileLines es 0).1

/-- A fresh entry holding only source text (the shape `addExpr` creates). -/
noncomputable def mkE (s : String) : Entry := { src := s }

end Graphos

namespace Graphos

/-! ## Structural lemmas about the classifier -/

/-- The finite scalar outcome of one line: `some v` exactly when the line is
a calculator line whose immediate evaluation is finite — the only event that
writes the running-result register. -/
noncomputable def scalarResult (e : Entry) (a : ℝ) : Option ℝ :=
  if (completeLine e a).1.kind = "scalar" then (completeLine e a).1.value else none

lemma completeLine_ans (e : Entry) (a : ℝ) :
    (completeLine e a).2 = (scalarResult e a).getD a := by
  unfold scalarResult completeLine
  rcases classify (normSrc e.src) with (m | ast) | (m | ⟨ar, b1, b2⟩)
    | (m | ⟨ax, ay, b1, b2⟩) | (m | ⟨A, o1, B, o2, C⟩) | ⟨(m | ⟨L, R⟩), op⟩
    | (m | ⟨L, R⟩) | (m | ast) | (m | ast) <;>
    dsimp only <;>
    (try cases evalE (envOf (mergeParams (detectParams e.src.data) e.params) a) ast) <;>
    simp

lemma completeLine_kind (e : Entry) (a : ℝ) :
    (completeLine e a).1.kind = branchKindStr (classifyTag (classify (normSrc e.src))) := by
  unfold completeLine
  rcases classify (normSrc e.src) with (m | ast) | (m | ⟨ar, b1, b2⟩)
    | (m | ⟨ax, ay, b1, b2⟩) | (m | ⟨A, o1, B, o2, C⟩) | ⟨(m | ⟨L, R⟩), op⟩
    | (m | ⟨L, R⟩) | (m | ast) | (m | ast) <;>
    dsimp only <;>
    (try cases evalE (envOf (mergeParams (detectParams e.src.data) e.params) a) ast) <;>
    rfl

lemma tag_scalar (s : List Char) :
    classifyTag (classifyScalar s) = selectBranchScalar s := by
  unfold classifyScalar selectBranchScalar
  split <;> rfl

lemma tag_implicit (s : List Char) :
    classifyTag (classifyImplicit s) = selectBranchImplicit s := by
  unfold classifyImplicit selectBranchImplicit
  split
  · rcases h2 : splitChar '=' s with _ | ⟨l, _ | ⟨r, _ | _⟩⟩ <;> dsimp only <;>
      (try rfl) <;>
      (cases parseEx l <;> dsimp only <;> (try rfl) <;>
        cases parseEx r <;> dsimp only <;> rfl)
  · exact tag_scalar s

lemma tag_single (s : List Char) :
    classifyTag (classifySingle s) = selectBranchSingle s := by
  unfold classifySingle selectBranchSingle
  cases h : findCmp s with
  | none => exact tag_implicit s
  | some oi =>
    obtain ⟨o, i⟩ := oi
    dsimp only
    cases parseEx (List.take i s) with
    | error m => rfl
    | ok L =>
      dsimp only
      cases parseEx (List.drop (i + o.length) s) <;> rfl

lemma tag_double (s : List Char) :
    classifyTag (classifyDouble s) = selectBranchDouble s := by
  unfold classifyDouble selectBranchDouble
  cases h : findDouble s with
  | none => exact tag_single s
  | some t =>
    obtain ⟨a, o1, b, o2, c⟩ := t
    dsimp only
    cases parseEx a with
    | error m => rfl
    | ok A =>
      dsimp only
      cases parseEx b with
      | error m => rfl
      | ok B =>
        dsimp only
        cases parseEx c <;> rfl

lemma tag_parametric (s : List Char) :
    classifyTag (classifyParametric s) = selectBranchParametric s := by
  unfold classifyParametric selectBranchParametric
  split
  · rcases h : parametricParts s with ⟨xP, yP, tb1, tb2⟩
    dsimp only
    split
    · cases parseEx (xP.getD []) with
      | error m => rfl
      | ok ax =>
        dsimp only
        cases parseEx (yP.getD []) <;> rfl
    · exact tag_double s
  · exact tag_double s

lemma tag_polar (s : List Char) :
    classifyTag (classifyPolar s) = selectBranchPolar s := by
  unfold classifyPolar selectBranchPolar
  cases h : polarCapture s with
  | none => exact tag_parametric s
  | some cap =>
    dsimp only
    split
    · cases parseEx cap with
      | error m => rfl
      | ok ar => dsimp only; rfl
    · exact tag_parametric s

/-- The compiled branch is decided by the string tests alone. -/
lemma classifyTag_eq_selectBranch (s : List Char) :
    classifyTag (classify s) = selectBranch s := by
  unfold classify selectBranch
  cases matchYeq s with
  | none => exact tag_polar s
  | some body => rfl

/-- An error-carrying line has every evaluable payload `none`. -/
lemma completeLine_error_null (e : Entry) (a : ℝ)
    (h : (completeLine e a).1.error ≠ "") :
    (completeLine e a).1.fn = none ∧ (completeLine e a).1.fr = none
    ∧ (completeLine e a).1.fx = none ∧ (completeLine e a).1.fy = none
    ∧ (completeLine e a).1.F = none ∧ (completeLine e a).1.F1 = none
    ∧ (completeLine e a).1.F2 = none ∧ (completeLine e a).1.value = none := by
  revert h
  unfold completeLine
  rcases classify (normSrc e.src) with (m | ast) | (m | ⟨ar, b1, b2⟩)
    | (m | ⟨ax, ay, b1, b2⟩) | (m | ⟨A, o1, B, o2, C⟩) | ⟨(m | ⟨L, R⟩), op⟩
    | (m | ⟨L, R⟩) | (m | ast) | (m | ast) <;>
    dsimp only <;>
    (try cases evalE (envOf (mergeParams (detectParams e.src.data) e.params) a) ast) <;>
    (intro h) <;> first
  | exact absurd rfl h
  | exact ⟨rfl, rfl, rfl, rfl, rfl, rfl, rfl, rfl⟩

end Graphos

namespace Graphos

/-! ## Register threading lemmas -/

lemma compileLines_append (l1 l2 : List Entry) (a : ℝ) :
    compileLines (l1 ++ l2) a
      = ((compileLines l1 a).1 ++ (compileLines l2 ((compileLines l1 a).2)).1,
         (compileLines l2 ((compileLines l1 a).2)).2) := by
  induction l1 generalizing a with
  | nil => simp [compileLines]
  | cons e rest ih =>
    simp only [List.cons_append, compileLines, List.append_eq]
    rw [ih]

lemma compileLines_snd_foldl (es : List Entry) (a : ℝ) :
    (compileLines es a).2
      = es.foldl (fun acc e => (scalarResult e acc).getD acc) a := by
  induction es generalizing a with
  | nil => rfl
  | cons e rest ih =>
    simp only [compileLines, List.foldl_cons]
    rw [← completeLine_ans e a]
    exact ih ((completeLine e a).2)

end Graphos

namespace Graphos

/-- C1: the classifier assigns the spec's kind to each of the eight example
inputs — `"y = x^2"` explicit; `"x^2+y^2=4"` implicit; `"x^2+y^2<=4"`
inequality with normalized operator `le`; `"1<=x^2+y^2<=4"` the
double-inequality kind (tagged `"double-ineq"` in the source);
`"x=cos(t), y=sin(t), t=[0,2*pi]"` parametric; `"r=1+0.5*cos(theta)"` polar;
`"2+3*4"` scalar with value 14; `"sin(x)"` explicit via the fallback
branch. -/
theorem claim_C1_classifier_examples :
    (compiled [mkE "y = x^2"]).map (fun l => l.kind) = ["explicit"]
    ∧ (compiled [mkE "x^2+y^2=4"]).map (fun l => l.kind) = ["implicit"]
    ∧ (compiled [mkE "x^2+y^2<=4"]).map (fun l => (l.kind, l.op)) = [("inequality", "le")]
    ∧ (compiled [mkE "1<=x^2+y^2<=4"]).map (fun l => l.kind) = ["double-ineq"]
    ∧ (compiled [mkE "x=cos(t), y=sin(t), t=[0,2*pi]"]).map (fun l => l.kind) = ["parametric"]
    ∧ (compiled [mkE "r=1+0.5*cos(theta)"]).map (fun l => l.kind) = ["polar"]
    ∧ (compiled [mkE "2+3*4"]).map (fun l => (l.kind, l.value)) = [("scalar", some (14 : ℝ))]
    ∧ (compiled [mkE "sin(x)"]).map (fun l => l.kind) = ["explicit"] := by
  refine ⟨rfl, rfl, rfl, rfl, rfl, rfl, ?_, rfl⟩
  have h : (compiled [mkE "2+3*4"]).map (fun l => (l.kind, l.value))
      = [("scalar", some ((((2 : ℕ) : ℚ) : ℝ) + (((3 : ℕ) : ℚ) : ℝ) * (((4 : ℕ) : ℚ) : ℝ)))] :=
    rfl
  rw [h]
  norm_num

/-- C2: the running-result register is threaded top-to-bottom starting at 0.
The compiled list of `es ++ [e]` compiles `e` against the register
accumulated over `es`; the register after a sequence is the left fold that
applies, per line, the line's finite scalar result if it has one and keeps
the register otherwise (so parse errors, non-finite values, and non-scalar
lines leave it unchanged); and for the scalar lines `["2+3*4", "ans+1"]` the
second evaluates to 15. -/
theorem claim_C2_running_result :
    (∀ (es : List Entry) (e : Entry),
        compiled (es ++ [e])
          = compiled es ++ [(completeLine e ((compileLines es 0).2)).1])
    ∧ (∀ es : List Entry,
        (compileLines es 0).2
          = es.foldl (fun acc e => (scalarResult e acc).getD acc) 0)
    ∧ (compiled [mkE "2+3*4", mkE "ans+1"]).map (fun l => (l.kind, l.value))
        = [("scalar", some (14 : ℝ)), ("scalar", some (15 : ℝ))] := by
  refine ⟨?_, ?_, ?_⟩
  · intro es e
    unfold compiled
    rw [compileLines_append]
    simp [compileLines]
  · intro es
    exact compileLines_snd_foldl es 0
  · have h : (compiled [mkE "2+3*4", mkE "ans+1"]).map (fun l => (l.kind, l.value))
        = [("scalar", some ((((2 : ℕ) : ℚ) : ℝ) + (((3 : ℕ) : ℚ) : ℝ) * (((4 : ℕ) : ℚ) : ℝ))),
           ("scalar", some (((((2 : ℕ) : ℚ) : ℝ) + (((3 : ℕ) : ℚ) : ℝ) * (((4 : ℕ) : ℚ) : ℝ))
             + (((1 : ℕ) : ℚ) : ℝ)))] := rfl
    rw [h]
    norm_num

/-- C4 (code behavior at the claim's input): the top-level comma split severs
`t=[0` from `2*pi]`, the `]` is never found inside one part, and the range
clause is dropped — the classifier stores the default range `[-10, 10]`, not
`[0, 2π]`.  A parametric line with no range clause also gets the default
range. -/
theorem claim_C4_range_clause_lost :
    (compiled [mkE "x=cos(t), y=sin(t), t=[0,2*pi]"]).map
        (fun l => (l.kind, l.tmin, l.tmax))
      = [("parametric", some (-10 : ℝ), some (10 : ℝ))]
    ∧ (compiled [mkE "x=t^2, y=t"]).map (fun l => (l.kind, l.tmin, l.tmax))
      = [("parametric", some (-10 : ℝ), some (10 : ℝ))] :=
  ⟨rfl, rfl⟩

/-- The compile-failure message of the chosen branch, when there is one. -/
def classifyErr : Classified → Option String
  | .explicitB (.error m) => some m
  | .polarB (.error m) => some m
  | .parametricB (.error m) => some m
  | .doubleB (.error m) => some m
  | .ineqB (.error m) _ => some m
  | .implicitB (.error m) => some m
  | .scalarB (.error m) => some m
  | .fallbackB (.error m) => some m
  | _ => none

lemma completeLine_err (e : Entry) (a : ℝ) :
    ∀ m, classifyErr (classify (normSrc e.src)) = some m →
      (completeLine e a).1.error = m := by
  intro m
  unfold completeLine
  rcases classify (normSrc e.src) with (m2 | ast) | (m2 | ⟨ar, b1, b2⟩)
    | (m2 | ⟨ax, ay, b1, b2⟩) | (m2 | ⟨A, o1, B, o2, C⟩) | ⟨(m2 | ⟨L, R⟩), op⟩
    | (m2 | ⟨L, R⟩) | (m2 | ast) | (m2 | ast) <;>
    dsimp only <;> intro hm <;> simp [classifyErr] at hm <;> exact hm

/-- C5: once the string tests choose a branch, the line's kind is that
branch's kind — compile failures never fall through to a later branch — a
compile failure's message is attached to the line, and an error-carrying
line has every evaluable payload null. -/
theorem claim_C5_no_fallthrough (e : Entry) (a : ℝ) :
    (completeLine e a).1.kind = branchKindStr (selectBranch (normSrc e.src))
    ∧ (∀ m, classifyErr (classify (normSrc e.src)) = some m →
        (completeLine e a).1.error = m)
    ∧ ((completeLine e a).1.error ≠ "" →
        (completeLine e a).1.fn = none ∧ (completeLine e a).1.fr = none
        ∧ (completeLine e a).1.fx = none ∧ (completeLine e a).1.fy = none
        ∧ (completeLine e a).1.F = none ∧ (completeLine e a).1.F1 = none
        ∧ (completeLine e a).1.F2 = none ∧ (completeLine e a).1.value = none) :=
  ⟨(completeLine_kind e a).trans
      (congrArg branchKindStr (classifyTag_eq_selectBranch (normSrc e.src))),
   completeLine_err e a,
   completeLine_error_null e a⟩

/-- C5 witness: `"y = (2"` chooses the explicit branch and fails to compile;
the compiled line keeps kind `explicit`, carries the message, and has a null
function. -/
theorem claim_C5_no_fallthrough_witness :
    (completeLine (mkE "y = (2") 0).1.kind
        = branchKindStr (selectBranch (normSrc "y = (2"))
    ∧ (completeLine (mkE "y = (2") 0).1.fn = none
    ∧ (completeLine (mkE "y = (2") 0).1.error = "Parse error" :=
  ⟨(claim_C5_no_fallthrough (mkE "y = (2") 0).1,
   ((claim_C5_no_fallthrough (mkE "y = (2") 0).2.2 (by
      rw [show (completeLine (mkE "y = (2") 0).1.error = "Parse error" from rfl]
      decide)).1,
   (claim_C5_no_fallthrough (mkE "y = (2") 0).2.1 "Parse error" rfl⟩

end Graphos

namespace Graphos

/-! ## Coordinate transform (`makeTransform`, GraphingCalculator.js:143-153)

The transform is pure rational arithmetic; claim C3 is stated (as the claim
itself says) over exact rational arithmetic. -/

structure Transform where
  xScale : ℚ
  yScale : ℚ
  xToPx : ℚ → ℚ
  yToPx : ℚ → ℚ
  pxToX : ℚ → ℚ
  pxToY : ℚ → ℚ

def makeTransform (xMin xMax yMin yMax width height : ℚ) : Transform :=
  let xScale := width / (xMax - xMin)
  let yScale := height / (yMax - yMin)
  { xScale := xScale
    yScale := yScale
    xToPx := fun x => (x - xMin) * xScale
    yToPx := fun y => height - (y - yMin) * yScale
    pxToX := fun px => px / xScale + xMin
    pxToY := fun py => (height - py) / yScale + yMin }

/-- C3: for every viewport with `xMin < xMax`, `yMin < yMax` and positive
pixel dimensions, `pxToX ∘ xToPx` and `pxToY ∘ yToPx` are the identity —
exactly, over exact rational arithmetic. -/
theorem claim_C3_transform_roundtrip (xMin xMax yMin yMax width height : ℚ)
    (hx : xMin < xMax) (hy : yMin < yMax) (hw : 0 < width) (hh : 0 < height) :
    ∀ x y : ℚ,
      (makeTransform xMin xMax yMin yMax width height).pxToX
          ((makeTransform xMin xMax yMin yMax width height).xToPx x) = x
      ∧ (makeTransform xMin xMax yMin yMax width height).pxToY
          ((makeTransform xMin xMax yMin yMax width height).yToPx y) = y := by
  intro x y
  have hxs : width / (xMax - xMin) ≠ 0 :=
    div_ne_zero hw.ne' (sub_ne_zero.mpr hx.ne')
  have hys : height / (yMax - yMin) ≠ 0 :=
    div_ne_zero hh.ne' (sub_ne_zero.mpr hy.ne')
  unfold makeTransform
  dsimp only
  constructor
  · rw [mul_div_cancel_right₀ _ hxs]
    ring
  · rw [sub_sub_cancel, mul_div_cancel_right₀ _ hys]
    ring

/-- C3 witness: a concrete viewport and point, round-tripped through the
theorem. -/
theorem claim_C3_transform_roundtrip_witness :
    (makeTransform 0 2 (-1) 1 100 50).pxToX
        ((makeTransform 0 2 (-1) 1 100 50).xToPx (1/3)) = 1/3
    ∧ (makeTransform 0 2 (-1) 1 100 50).pxToY
        ((makeTransform 0 2 (-1) 1 100 50).yToPx (1/3)) = 1/3 :=
  claim_C3_transform_roundtrip 0 2 (-1) 1 100 50
    (by norm_num) (by norm_num) (by norm_num) (by norm_num) (1/3) (1/3)

/-! ## Grid step (`niceStep`, GraphingCalculator.js:154-157) -/

/-- `niceStep(range)`: `rough = range/10`, `p = 10^⌊log10(max(rough,1e-12))⌋`,
`r = rough/p`, then the first of `5p`, `2p`, `p` whose mantissa bound is
met. -/
noncomputable def niceStep (range : ℝ) : ℝ :=
  let rough := range / 10
  let p : ℝ := (10 : ℝ) ^ ⌊Real.logb 10 (max rough 1e-12)⌋
  let r := rough / p
  if r ≥ 5 then 5 * p else if r ≥ 2 then 2 * p else p

/-- C6 (amended): for every range with `range/10` at or above the `1e-12`
clamp of the logarithm argument, `niceStep` returns `m·10^k` with
`m ∈ {1,2,5}`, the value is `≤ range/10`, and the next larger candidate of
that form exceeds `range/10`. -/
theorem claim_C6_niceStep_amended (range : ℝ) (h : 1e-11 ≤ range) :
    ∃ k : ℤ,
      ((niceStep range = (10:ℝ)^k ∧ range / 10 < 2 * (10:ℝ)^k)
        ∨ (niceStep range = 2 * (10:ℝ)^k ∧ range / 10 < 5 * (10:ℝ)^k)
        ∨ (niceStep range = 5 * (10:ℝ)^k ∧ range / 10 < (10:ℝ)^(k+1)))
      ∧ niceStep range ≤ range / 10 := by
  have hten : (1:ℝ) < 10 := by norm_num
  set rough := range / 10 with hrough
  have hclamp : (1e-12 : ℝ) ≤ rough := by
    rw [hrough]; linarith
  have hpos : (0:ℝ) < rough := lt_of_lt_of_le (by norm_num) hclamp
  have hmax : max rough (1e-12 : ℝ) = rough := max_eq_left hclamp
  set k := ⌊Real.logb 10 rough⌋ with hk
  have hp : (0:ℝ) < (10:ℝ)^k := zpow_pos (by norm_num) k
  have h1 : (10:ℝ)^k ≤ rough := by
    calc (10:ℝ)^k = (10:ℝ) ^ ((k:ℝ)) := (Real.rpow_intCast 10 k).symm
    _ ≤ (10:ℝ) ^ Real.logb 10 rough :=
        Real.rpow_le_rpow_of_exponent_le (by norm_num) (Int.floor_le _)
    _ = rough := Real.rpow_logb (by norm_num) (by norm_num) hpos
  have h2 : rough < (10:ℝ)^(k + 1) := by
    calc rough = (10:ℝ) ^ Real.logb 10 rough :=
          (Real.rpow_logb (by norm_num) (by norm_num) hpos).symm
    _ < (10:ℝ) ^ (((k + 1 : ℤ)):ℝ) := by
        apply Real.rpow_lt_rpow_of_exponent_lt hten
        push_cast
        exact Int.lt_floor_add_one _
    _ = (10:ℝ)^(k+1) := Real.rpow_intCast 10 (k + 1)
  have hstep : niceStep range
      = (if rough / (10:ℝ)^k ≥ 5 then 5 * (10:ℝ)^k
         else if rough / (10:ℝ)^k ≥ 2 then 2 * (10:ℝ)^k else (10:ℝ)^k) := by
    unfold niceStep
    dsimp only
    rw [← hrough, hmax, ← hk]
  have h10p : (10:ℝ)^(k+1) = 10 * (10:ℝ)^k := by
    rw [zpow_add_one₀ (by norm_num : (10:ℝ) ≠ 0)]
    ring
  refine ⟨k, ?_⟩
  by_cases h5 : rough / (10:ℝ)^k ≥ 5
  · have hle : 5 * (10:ℝ)^k ≤ rough := by
      rw [ge_iff_le, le_div_iff₀ hp] at h5
      linarith
    rw [hstep, if_pos h5]
    exact ⟨Or.inr (Or.inr ⟨rfl, h2⟩), hle⟩
  · by_cases h2' : rough / (10:ℝ)^k ≥ 2
    · have hle : 2 * (10:ℝ)^k ≤ rough := by
        rw [ge_iff_le, le_div_iff₀ hp] at h2'
        linarith
      have hlt : rough < 5 * (10:ℝ)^k := by
        rw [not_le, div_lt_iff₀ hp] at h5
        linarith
      rw [hstep, if_neg h5, if_pos h2']
      exact ⟨Or.inr (Or.inl ⟨rfl, hlt⟩), hle⟩
    · have hle : (10:ℝ)^k ≤ rough := h1
      have hlt : rough < 2 * (10:ℝ)^k := by
        rw [not_le, div_lt_iff₀ hp] at h2'
        linarith
      rw [hstep, if_neg h5, if_neg h2']
      exact ⟨Or.inl ⟨rfl, hlt⟩, hle⟩

/-- C6 amended-claim witness at `range = 10`. -/
theorem claim_C6_niceStep_amended_witness :
    ∃ k : ℤ,
      ((niceStep 10 = (10:ℝ)^k ∧ (10:ℝ) / 10 < 2 * (10:ℝ)^k)
        ∨ (niceStep 10 = 2 * (10:ℝ)^k ∧ (10:ℝ) / 10 < 5 * (10:ℝ)^k)
        ∨ (niceStep 10 = 5 * (10:ℝ)^k ∧ (10:ℝ) / 10 < (10:ℝ)^(k+1)))
      ∧ niceStep 10 ≤ (10:ℝ) / 10 :=
  claim_C6_niceStep_amended 10 (by norm_num)

/-- C6 counterexample to the claim as stated: the positive range `1e-13` has
`rough = 1e-14` below the `1e-12` clamp, so `niceStep` returns `1e-12`,
which exceeds `range/10`. -/
theorem claim_C6_niceStep_counterexample :
    (0:ℝ) < 1e-13 ∧ ¬ (niceStep 1e-13 ≤ (1e-13 : ℝ) / 10) := by
  have hmax : max ((1e-13:ℝ) / 10) (1e-12 : ℝ) = (1e-12 : ℝ) :=
    max_eq_right (by norm_num)
  have hlit : (1e-12 : ℝ) = (10:ℝ) ^ ((-12 : ℤ) : ℝ) := by
    rw [Real.rpow_intCast]
    norm_num
  have hflr : ⌊Real.logb 10 (1e-12 : ℝ)⌋ = -12 := by
    rw [hlit, Real.logb_rpow (by norm_num) (by norm_num)]
    exact Int.floor_intCast _
  have hstep : niceStep (1e-13 : ℝ) = (10:ℝ) ^ (-12 : ℤ) := by
    unfold niceStep
    dsimp only
    rw [hmax, hflr]
    have hr5 : ¬ ((1e-13:ℝ) / 10 / (10:ℝ) ^ (-12 : ℤ) ≥ 5) := by
      rw [zpow_neg]
      norm_num
    have hr2 : ¬ ((1e-13:ℝ) / 10 / (10:ℝ) ^ (-12 : ℤ) ≥ 2) := by
      rw [zpow_neg]
      norm_num
    rw [if_neg hr5, if_neg hr2]
  constructor
  · norm_num
  · rw [hstep, zpow_neg]
    norm_num

end Graphos

namespace Graphos

/-! ## Bisection root refinement (`bisectRoot`, GraphingCalculator.js:1129-1141)

Generic over a linear ordered field so that the same algorithm serves the
real-valued analysis pass and decidable rational witnesses.  `f x = none`
models a non-finite evaluation. -/

variable {K : Type} [LinearOrderedField K] [DecidableEq K]

/-- `if (!Number.isFinite(ya)) ya = f(a)` — a missing endpoint value is
filled by evaluating `f`. -/
def fillEndpoint (f : K → Option K) (x : K) (y : Option K) : Option K :=
  match y with
  | some v => some v
  | none => f x

/-- The 32-iteration loop with its three exact-zero early exits; fuel 0 is
the fall-out return `0.5 * (lo + hi)`. -/
def bisectLoop (f : K → Option K) : Nat → K → K → K → K → Option K
  | 0, lo, hi, _, _ => some ((lo + hi) / 2)
  | n + 1, lo, hi, flo, fhi =>
    let mid := (lo + hi) / 2
    match f mid with
    | none => none
    | some fm =>
      if flo = 0 then some lo
      else if fhi = 0 then some hi
      else if fm = 0 then some mid
      else if flo * fm < 0 then bisectLoop f n lo mid flo fm
      else bisectLoop f n mid hi fm fhi

/-- `bisectRoot(f, a, b, ya, yb)` (default `iters = 32`; no caller overrides
it): fill the endpoint values, reject a non-finite or same-sign bracket, then
bisect. -/
def bisectRoot (f : K → Option K) (a b : K) (ya yb : Option K) : Option K :=
  match fillEndpoint f a ya, fillEndpoint f b yb with
  | some va, some vb => if va * vb > 0 then none else bisectLoop f 32 a b va vb
  | _, _ => none

/-- Iterations actually executed by `bisectLoop` (every path through the
loop body counts one). -/
def bisectLoopSteps (f : K → Option K) : Nat → K → K → K → K → Nat
  | 0, _, _, _, _ => 0
  | n + 1, lo, hi, flo, fhi =>
    let mid := (lo + hi) / 2
    match f mid with
    | none => 1
    | some fm =>
      if flo = 0 then 1
      else if fhi = 0 then 1
      else if fm = 0 then 1
      else if flo * fm < 0 then 1 + bisectLoopSteps f n lo mid flo fm
      else 1 + bisectLoopSteps f n mid hi fm fhi

/-- Iterations executed by `bisectRoot` (0 when the bracket is rejected). -/
def bisectRootSteps (f : K → Option K) (a b : K) (ya yb : Option K) : Nat :=
  match fillEndpoint f a ya, fillEndpoint f b yb with
  | some va, some vb => if va * vb > 0 then 0 else bisectLoopSteps f 32 a b va vb
  | _, _ => 0

lemma bisectLoopSteps_le (f : K → Option K) :
    ∀ (n : Nat) (lo hi flo fhi : K), bisectLoopSteps f n lo hi flo fhi ≤ n := by
  intro n
  induction n with
  | zero => intro lo hi flo fhi; exact Nat.le_refl 0
  | succ n ih =>
    intro lo hi flo fhi
    unfold bisectLoopSteps
    dsimp only
    split
    · omega
    · split
      · omega
      · split
        · omega
        · split
          · omega
          · split
            · rename_i fm heq h1 h2 h3 h4
              have := ih lo ((lo + hi) / 2) flo fm
              omega
            · rename_i fm heq h1 h2 h3 h4
              have := ih ((lo + hi) / 2) hi fm fhi
              omega

lemma bisectLoop_isSome (f : K → Option K) (hf : ∀ x, (f x).isSome) :
    ∀ (n : Nat) (lo hi flo fhi : K), (bisectLoop f n lo hi flo fhi).isSome := by
  intro n
  induction n with
  | zero => intro lo hi flo fhi; rfl
  | succ n ih =>
    intro lo hi flo fhi
    unfold bisectLoop
    dsimp only
    split
    · rename_i heq
      have h2 := hf ((lo + hi) / 2)
      rw [heq] at h2
      simp at h2
    · split
      · rfl
      · split
        · rfl
        · split
          · rfl
          · split
            · exact ih _ _ _ _
            · exact ih _ _ _ _

lemma bisectLoop_mem_Icc (f : K → Option K) :
    ∀ (n : Nat) (lo hi flo fhi r : K), lo ≤ hi →
      bisectLoop f n lo hi flo fhi = some r → lo ≤ r ∧ r ≤ hi := by
  intro n
  induction n with
  | zero =>
    intro lo hi flo fhi r hle h
    have hr : r = (lo + hi) / 2 := by
      simpa [bisectLoop] using h.symm
    subst hr
    constructor <;> [linarith; linarith]
  | succ n ih =>
    intro lo hi flo fhi r hle h
    have hmid1 : lo ≤ (lo + hi) / 2 := by linarith
    have hmid2 : (lo + hi) / 2 ≤ hi := by linarith
    unfold bisectLoop at h
    dsimp only at h
    cases hm : f ((lo + hi) / 2) with
    | none => rw [hm] at h; exact absurd h (by simp)
    | some fm =>
      rw [hm] at h
      dsimp only at h
      by_cases h1 : flo = 0
      · rw [if_pos h1] at h
        cases h
        exact ⟨le_refl _, hle⟩
      · rw [if_neg h1] at h
        by_cases h2 : fhi = 0
        · rw [if_pos h2] at h
          cases h
          exact ⟨hle, le_refl _⟩
        · rw [if_neg h2] at h
          by_cases h3 : fm = 0
          · rw [if_pos h3] at h
            cases h
            exact ⟨hmid1, hmid2⟩
          · rw [if_neg h3] at h
            by_cases h4 : flo * fm < 0
            · rw [if_pos h4] at h
              have := ih lo ((lo + hi) / 2) flo fm r hmid1 h
              exact ⟨this.1, this.2.trans hmid2⟩
            · rw [if_neg h4] at h
              have := ih ((lo + hi) / 2) hi fm fhi r hmid2 h
              exact ⟨hmid1.trans this.1, this.2⟩

end Graphos

namespace Graphos

variable {K : Type} [LinearOrderedField K] [DecidableEq K]

lemma bisectLoop_flo_zero (f : K → Option K) (n : Nat) (lo hi fhi : K)
    (h : (f ((lo + hi) / 2)).isSome) :
    bisectLoop f (n + 1) lo hi 0 fhi = some lo := by
  obtain ⟨fm, hfm⟩ := Option.isSome_iff_exists.mp h
  unfold bisectLoop
  dsimp only
  rw [hfm]
  dsimp only
  rw [if_pos rfl]

lemma bisectLoop_fhi_zero (f : K → Option K) (n : Nat) (lo hi flo : K)
    (hflo : flo ≠ 0) (h : (f ((lo + hi) / 2)).isSome) :
    bisectLoop f (n + 1) lo hi flo 0 = some hi := by
  obtain ⟨fm, hfm⟩ := Option.isSome_iff_exists.mp h
  unfold bisectLoop
  dsimp only
  rw [hfm]
  dsimp only
  rw [if_neg hflo, if_pos rfl]

lemma bisectLoop_fm_zero (f : K → Option K) (n : Nat) (lo hi flo fhi : K)
    (hflo : flo ≠ 0) (hfhi : fhi ≠ 0) (hfm : f ((lo + hi) / 2) = some 0) :
    bisectLoop f (n + 1) lo hi flo fhi = some ((lo + hi) / 2) := by
  unfold bisectLoop
  dsimp only
  rw [hfm]
  dsimp only
  rw [if_neg hflo, if_neg hfhi, if_pos rfl]

/-- C7: `bisectRoot` returns `null` exactly on a bad bracket — a non-finite
endpoint value (after filling missing ones by evaluating `f`), a same-sign
non-zero pair, or a non-finite midpoint evaluation along the way (for an
everywhere-finite `f` the bracket condition is exact, and a `null` on a good
bracket always exhibits a non-finite evaluation); it runs at most 32
iterations, and exits early with the exact left endpoint, right endpoint, or
midpoint when the corresponding value is exactly zero. -/
theorem claim_C7_bisectRoot_null_spec (f : K → Option K) (a b : K)
    (ya yb : Option K) :
    (fillEndpoint f a ya = none → bisectRoot f a b ya yb = none)
    ∧ (fillEndpoint f b yb = none → bisectRoot f a b ya yb = none)
    ∧ (∀ va vb, fillEndpoint f a ya = some va → fillEndpoint f b yb = some vb →
        va * vb > 0 → bisectRoot f a b ya yb = none)
    ∧ ((∀ x, (f x).isSome) →
        (bisectRoot f a b ya yb = none ↔
          ∃ va vb, fillEndpoint f a ya = some va ∧ fillEndpoint f b yb = some vb
            ∧ va * vb > 0))
    ∧ (∀ va vb, fillEndpoint f a ya = some va → fillEndpoint f b yb = some vb →
        ¬ va * vb > 0 → bisectRoot f a b ya yb = none → ∃ x, f x = none)
    ∧ bisectRootSteps f a b ya yb ≤ 32
    ∧ (∀ vb, fillEndpoint f a ya = some 0 → fillEndpoint f b yb = some vb →
        (f ((a + b) / 2)).isSome → bisectRoot f a b ya yb = some a)
    ∧ (∀ va, fillEndpoint f a ya = some va → va ≠ 0 → fillEndpoint f b yb = some 0 →
        (f ((a + b) / 2)).isSome → bisectRoot f a b ya yb = some b)
    ∧ (∀ va vb, fillEndpoint f a ya = some va → fillEndpoint f b yb = some vb →
        ¬ va * vb > 0 → va ≠ 0 → vb ≠ 0 → f ((a + b) / 2) = some 0 →
        bisectRoot f a b ya yb = some ((a + b) / 2)) := by
  have hfill : ∀ (x : K) (y : Option K), (∀ z, (f z).isSome) →
      (fillEndpoint f x y).isSome := by
    intro x y hf
    cases y
    · exact hf x
    · rfl
  refine ⟨?_, ?_, ?_, ?_, ?_, ?_, ?_, ?_, ?_⟩
  · intro h
    unfold bisectRoot
    rw [h]
  · intro h
    unfold bisectRoot
    rw [h]
    rcases fillEndpoint f a ya with _ | va <;> rfl
  · intro va vb h1 h2 hp
    unfold bisectRoot
    rw [h1, h2]
    dsimp only
    rw [if_pos hp]
  · intro hf
    constructor
    · intro hnone
      obtain ⟨va, h1⟩ := Option.isSome_iff_exists.mp (hfill a ya hf)
      obtain ⟨vb, h2⟩ := Option.isSome_iff_exists.mp (hfill b yb hf)
      refine ⟨va, vb, h1, h2, ?_⟩
      by_contra hp
      unfold bisectRoot at hnone
      rw [h1, h2] at hnone
      dsimp only at hnone
      rw [if_neg hp] at hnone
      have h3 := bisectLoop_isSome f hf 32 a b va vb
      rw [hnone] at h3
      simp at h3
    · rintro ⟨va, vb, h1, h2, hp⟩
      unfold bisectRoot
      rw [h1, h2]
      dsimp only
      rw [if_pos hp]
  · intro va vb h1 h2 hp hnone
    by_contra hx
    push_neg at hx
    have hf : ∀ x, (f x).isSome := by
      intro x
      rcases hfx : f x with _ | v
      · exact absurd hfx (hx x)
      · rfl
    unfold bisectRoot at hnone
    rw [h1, h2] at hnone
    dsimp only at hnone
    rw [if_neg hp] at hnone
    have := bisectLoop_isSome f hf 32 a b va vb
    rw [hnone] at this
    simp at this
  · unfold bisectRootSteps
    rcases fillEndpoint f a ya with _ | va
    · exact Nat.zero_le 32
    · rcases fillEndpoint f b yb with _ | vb
      · exact Nat.zero_le 32
      · dsimp only
        split
        · exact Nat.zero_le 32
        · exact bisectLoopSteps_le f 32 a b va vb
  · intro vb h1 h2 hm
    unfold bisectRoot
    rw [h1, h2]
    dsimp only
    have hp : ¬ (0 : K) * vb > 0 := by
      rw [zero_mul]
      exact lt_irrefl 0
    rw [if_neg hp]
    exact bisectLoop_flo_zero f 31 a b vb hm
  · intro va h1 hva h2 hm
    unfold bisectRoot
    rw [h1, h2]
    dsimp only
    have hp : ¬ va * (0 : K) > 0 := by
      rw [mul_zero]
      exact lt_irrefl 0
    rw [if_neg hp]
    exact bisectLoop_fhi_zero f 31 a b va hva hm
  · intro va vb h1 h2 hp hva hvb hm
    unfold bisectRoot
    rw [h1, h2]
    dsimp only
    rw [if_neg hp]
    exact bisectLoop_fm_zero f 31 a b va vb hva hvb hm

/-- C7 witness: a zero left endpoint value with a finite midpoint exits with
the exact endpoint. -/
theorem claim_C7_bisectRoot_null_spec_witness :
    bisectRoot (fun x : ℚ => some x) 2 6 (some 0) (some 9) = some 2 :=
  (claim_C7_bisectRoot_null_spec (fun x : ℚ => some x) 2 6
      (some 0) (some 9)).2.2.2.2.2.2.1 9 rfl rfl rfl

/-- C10: whenever `bisectRoot` over an ordered bracket returns a value, that
value lies within the closed interval `[a, b]`. -/
theorem claim_C10_bisectRoot_in_bracket (f : K → Option K) (a b : K)
    (ya yb : Option K) (r : K) (hab : a ≤ b)
    (h : bisectRoot f a b ya yb = some r) : a ≤ r ∧ r ≤ b := by
  unfold bisectRoot at h
  rcases h1 : fillEndpoint f a ya with _ | va
  · rw [h1] at h
    dsimp only at h
    exact absurd h (by simp)
  · rcases h2 : fillEndpoint f b yb with _ | vb
    · rw [h1, h2] at h
      dsimp only at h
      exact absurd h (by simp)
    · rw [h1, h2] at h
      dsimp only at h
      by_cases hp : va * vb > 0
      · rw [if_pos hp] at h
        exact absurd h (by simp)
      · rw [if_neg hp] at h
        exact bisectLoop_mem_Icc f 32 a b va vb r hab h

/-- C10 witness: a concrete bracket whose returned root is the midpoint,
inside the bracket. -/
theorem claim_C10_bisectRoot_in_bracket_witness :
    bisectRoot (fun x : ℚ => some x) (-1) 1 (some (-1)) (some 1) = some 0
    ∧ (-1 : ℚ) ≤ 0 ∧ (0 : ℚ) ≤ 1 := by
  have h0 : bisectRoot (fun x : ℚ => some x) (-1) 1 (some (-1)) (some 1)
      = some 0 := by
    have h : bisectRoot (fun x : ℚ => some x) (-1) 1 (some (-1)) (some 1)
        = some (((-1 : ℚ) + 1) / 2) := by
      unfold bisectRoot
      dsimp only [fillEndpoint]
      rw [if_neg (by norm_num : ¬ (-1 : ℚ) * 1 > 0)]
      exact bisectLoop_fm_zero (fun x : ℚ => some x) 31 (-1) 1 (-1) 1
        (by norm_num) (by norm_num) (by simp)
    simpa using h
  exact ⟨h0,
    claim_C10_bisectRoot_in_bracket (fun x : ℚ => some x) (-1) 1
      (some (-1)) (some 1) 0 (by norm_num) h0⟩

end Graphos

namespace Graphos

/-! ## Viewport and `fitToData` (GraphingCalculator.js:979-990) -/

structure Viewport where
  xMin : ℝ
  xMax : ℝ
  yMin : ℝ
  yMax : ℝ

/-- `compiled.filter(e => e.visible && e.kind === "explicit" && e.fn &&
!e.error)` — the filter shared by `fitToData` and the analysis pass. -/
def visibleExplicitFns (cs : List CompiledLine) : List CompiledLine :=
  cs.filter (fun e =>
    e.entry.visible && e.kind == "explicit" && e.fn.isSome && e.error == "")

/-- Apply a stored explicit function (absent = always non-finite). -/
noncomputable def applyFnOpt (e : CompiledLine) (x : ℝ) : Option ℝ :=
  (e.fn.getD (fun _ => none)) x

/-- One min/max accumulation step (`yMin = Math.min(yMin, y)` /
`yMax = Math.max(yMax, y)` with the `Infinity` sentinels as `none`). -/
def mmStep (acc : Option ℝ × Option ℝ) (y : ℝ) : Option ℝ × Option ℝ :=
  (some (match acc.1 with | none => y | some m => min m y),
   some (match acc.2 with | none => y | some M => max M y))

/-- The inner loop body of `fitToData`'s scan: skip a non-finite sample,
otherwise fold it into the running min/max. -/
noncomputable def fitMMStep (x : ℝ) (acc2 : Option ℝ × Option ℝ)
    (e : CompiledLine) : Option ℝ × Option ℝ :=
  match applyFnOpt e x with
  | none => acc2
  | some y => mmStep acc2 y

/-- `fitToData`: sample the visible explicit curves at 801 points across the
current x-range, take the finite min/max, and pad by 10% of the spread (1
when the spread is zero -- `(yMax - yMin) * 0.1 || 1`).  No-op without
curves or finite samples. -/
noncomputable def fitToData (cs : List CompiledLine) (v : Viewport) : Viewport :=
  let funcs := visibleExplicitFns cs
  if funcs.isEmpty then v
  else
    let step := (v.xMax - v.xMin) / 800
    let mm : Option ℝ × Option ℝ :=
      (List.range 801).foldl
        (fun acc (i : ℕ) => funcs.foldl (fitMMStep (v.xMin + (i : ℝ) * step)) acc)
        (none, none)
    match mm with
    | (some yMin, some yMax) =>
      let pad0 := (yMax - yMin) * 0.1
      let pad := if pad0 = 0 then 1 else pad0
      { v with yMin := yMin - pad, yMax := yMax + pad }
    | _ => v

/-- The finite sampled values of `fitToData`, flattened in scan order. -/
noncomputable def fitSamples (cs : List CompiledLine) (v : Viewport) : List ℝ :=
  (List.range 801).flatMap (fun (i : ℕ) =>
    (visibleExplicitFns cs).filterMap (fun e =>
      applyFnOpt e (v.xMin + (i : ℝ) * ((v.xMax - v.xMin) / 800))))

lemma foldl_flatMap_eq {α β γ : Type} (g : γ → List β) (f : α → β → α) :
    ∀ (l : List γ) (a : α),
      (l.flatMap g).foldl f a = l.foldl (fun acc c => (g c).foldl f acc) a := by
  intro l
  induction l with
  | nil => intro a; rfl
  | cons c rest ih =>
    intro a
    simp only [List.flatMap_cons, List.foldl_append, List.foldl_cons]
    exact ih _

lemma foldl_filterMap_mm (x : ℝ) :
    ∀ (l : List CompiledLine) (a : Option ℝ × Option ℝ),
      (l.filterMap (fun e => applyFnOpt e x)).foldl mmStep a
        = l.foldl (fitMMStep x) a := by
  intro l
  induction l with
  | nil => intro a; rfl
  | cons e rest ih =>
    intro a
    rcases h : applyFnOpt e x with _ | y <;>
      simp only [List.filterMap_cons, h, List.foldl_cons, fitMMStep] <;>
      exact ih _

lemma foldl_min_some (c : ℝ) :
    ∀ (l : List ℝ),
      l.foldl (fun (o : Option ℝ) y => some (match o with | none => y | some m => min m y))
          (some c)
        = some (l.foldl min c) := by
  intro l
  induction l generalizing c with
  | nil => rfl
  | cons y rest ih => simp only [List.foldl_cons]; exact ih _

lemma foldl_max_some (c : ℝ) :
    ∀ (l : List ℝ),
      l.foldl (fun (o : Option ℝ) y => some (match o with | none => y | some M => max M y))
          (some c)
        = some (l.foldl max c) := by
  intro l
  induction l generalizing c with
  | nil => rfl
  | cons y rest ih => simp only [List.foldl_cons]; exact ih _

lemma mmStep_fst :
    ∀ (l : List ℝ) (acc : Option ℝ × Option ℝ),
      (l.foldl mmStep acc).1
        = l.foldl (fun o y => some (match o with | none => y | some m => min m y)) acc.1 := by
  intro l
  induction l with
  | nil => intro acc; rfl
  | cons y rest ih => intro acc; simp only [List.foldl_cons]; exact ih _

lemma mmStep_snd :
    ∀ (l : List ℝ) (acc : Option ℝ × Option ℝ),
      (l.foldl mmStep acc).2
        = l.foldl (fun o y => some (match o with | none => y | some M => max M y)) acc.2 := by
  intro l
  induction l with
  | nil => intro acc; rfl
  | cons y rest ih => intro acc; simp only [List.foldl_cons]; exact ih _

lemma foldl_mmStep_min? (l : List ℝ) :
    (l.foldl mmStep (none, none)).1 = l.min? := by
  rw [mmStep_fst]
  cases l with
  | nil => rfl
  | cons y rest =>
    rw [List.min?_cons']
    simp only [List.foldl_cons]
    exact foldl_min_some y rest

lemma foldl_mmStep_max? (l : List ℝ) :
    (l.foldl mmStep (none, none)).2 = l.max? := by
  rw [mmStep_snd]
  cases l with
  | nil => rfl
  | cons y rest =>
    rw [List.max?_cons']
    simp only [List.foldl_cons]
    exact foldl_max_some y rest

end Graphos

namespace Graphos

lemma flatMap_const_singleton {α : Type} (c : α) :
    ∀ l : List ℕ, l.flatMap (fun _ => [c]) = List.replicate l.length c := by
  intro l
  induction l with
  | nil => rfl
  | cons i rest ih =>
    simp only [List.flatMap_cons, List.length_cons, List.replicate_succ, ih]
    rfl

set_option maxRecDepth 4000 in
lemma fitToData_minmax (cs : List CompiledLine) (v : Viewport) :
    fitToData cs v
      = match (fitSamples cs v).min?, (fitSamples cs v).max? with
        | some m, some M =>
          { v with yMin := m - (if (M - m) * 0.1 = 0 then 1 else (M - m) * 0.1),
                   yMax := M + (if (M - m) * 0.1 = 0 then 1 else (M - m) * 0.1) }
        | _, _ => v := by
  unfold fitToData
  by_cases hE : (visibleExplicitFns cs).isEmpty
  · rw [if_pos hE]
    have hv : fitSamples cs v = [] := by
      unfold fitSamples
      rw [List.isEmpty_iff.mp hE]
      simp
    rw [hv]
    rfl
  · rw [if_neg hE]
    have h1 : (fitSamples cs v).foldl mmStep ((none, none) : Option ℝ × Option ℝ)
        = (List.range 801).foldl
            (fun acc (i : ℕ) =>
              (visibleExplicitFns cs).foldl
                (fitMMStep (v.xMin + (i : ℝ) * ((v.xMax - v.xMin) / 800))) acc)
            (none, none) := by
      unfold fitSamples
      rw [foldl_flatMap_eq]
      simp only [foldl_filterMap_mm]
    have key : (List.range 801).foldl
        (fun acc (i : ℕ) =>
          (visibleExplicitFns cs).foldl
            (fitMMStep (v.xMin + (i : ℝ) * ((v.xMax - v.xMin) / 800))) acc)
        ((none, none) : Option ℝ × Option ℝ)
        = ((fitSamples cs v).min?, (fitSamples cs v).max?) := by
      rw [← h1]
      exact Prod.ext (foldl_mmStep_min? _) (foldl_mmStep_max? _)
    dsimp only
    rw [key]
    rcases (fitSamples cs v).min? with _ | m <;>
      rcases (fitSamples cs v).max? with _ | M <;> rfl

/-- C9: `fitToData` rewrites only the y-range — to the min/max of the finite
values among the 801 samples of the visible error-free explicit curves over
the current x-range, padded by 10% of the spread, or by exactly 1 when the
spread is zero — and is a no-op when there is no such curve or no finite
sample (both give an empty sample list); for a constant curve `f(x)=c` the
resulting y-range is exactly `[c-1, c+1]`. -/
theorem claim_C9_fitToData (cs : List CompiledLine) (v : Viewport) :
    (fitToData cs v
      = match (fitSamples cs v).min?, (fitSamples cs v).max? with
        | some m, some M =>
          { v with yMin := m - (if (M - m) * 0.1 = 0 then 1 else (M - m) * 0.1),
                   yMax := M + (if (M - m) * 0.1 = 0 then 1 else (M - m) * 0.1) }
        | _, _ => v)
    ∧ (fitToData cs v).xMin = v.xMin
    ∧ (fitToData cs v).xMax = v.xMax
    ∧ ∀ c : ℝ,
        fitToData
            [{ entry := { src := "" }, kind := "explicit",
               fn := some (fun _ => some c) }] v
          = { v with yMin := c - 1, yMax := c + 1 } := by
  refine ⟨fitToData_minmax cs v, ?_, ?_, ?_⟩
  · rw [fitToData_minmax cs v]
    rcases (fitSamples cs v).min? with _ | m <;>
      rcases (fitSamples cs v).max? with _ | M <;> rfl
  · rw [fitToData_minmax cs v]
    rcases (fitSamples cs v).min? with _ | m <;>
      rcases (fitSamples cs v).max? with _ | M <;> rfl
  · intro c
    set line : CompiledLine :=
      { entry := { src := "" }, kind := "explicit", fn := some (fun _ => some c) }
      with hline
    have hf : visibleExplicitFns [line] = [line] := rfl
    have hs : fitSamples [line] v = List.replicate 801 c := by
      unfold fitSamples
      rw [hf]
      have hsing : ∀ x : ℝ, [line].filterMap (fun e => applyFnOpt e x) = [c] := by
        intro x
        rfl
      simp only [hsing]
      rw [flatMap_const_singleton c (List.range 801), List.length_range]
    rw [fitToData_minmax [line] v, hs]
    rw [List.min?_replicate_of_pos (min_self c) (by norm_num),
        List.max?_replicate_of_pos (max_self c) (by norm_num)]
    have hpad : (c - c) * (0.1 : ℝ) = 0 := by
      rw [sub_self, zero_mul]
    dsimp only
    rw [if_pos hpad]

end Graphos

namespace Graphos

/-! ## Auto-analysis (the `analysis` useMemo, GraphingCalculator.js:1157-1272)

All four point categories push through one shared `seen` set keyed by
`mapKey(x, y)` — rounding both coordinates to 6 decimal digits — with first
writer wins. -/

/-- `Math.round` (half goes toward `+∞`). -/
noncomputable def jsRound (x : ℝ) : ℤ := ⌊x + 1/2⌋

/-- ``mapKey = (x, y) => `${Math.round(x*1e6)}:${Math.round(y*1e6)}` `` — the
two rounded integers (the string encoding with the `:` separator is
injective in them). -/
noncomputable def mapKey (x y : ℝ) : ℤ × ℤ := (jsRound (x * 1e6), jsRound (y * 1e6))

structure APoint where
  ptype : String
  x : ℝ
  y : ℝ
  color : String := ""
  exprId : Nat := 0
  exprId2 : Option Nat := none

structure AnalysisResult where
  xIntercepts : List APoint := []
  yIntercepts : List APoint := []
  extrema : List APoint := []
  intersections : List APoint := []
  allPoints : List APoint := []

/-- The accumulating state: the four category lists and the shared dedup
set. -/
structure AAcc where
  xInt : List APoint := []
  yInt : List APoint := []
  ext : List APoint := []
  inter : List APoint := []
  seen : Finset (ℤ × ℤ) := ∅

inductive ACat where
  | xIntC | yIntC | extC | interC

/-- `const key = mapKey(x, y); if (!seen.has(key)) { seen.add(key);
result.<category>.push(pt) }` — the guarded push every category uses. -/
noncomputable def pushPt (acc : AAcc) (cat : ACat) (p : APoint) : AAcc :=
  let key := mapKey p.x p.y
  if key ∈ acc.seen then acc
  else
    match cat with
    | .xIntC => { acc with seen := insert key acc.seen, xInt := acc.xInt ++ [p] }
    | .yIntC => { acc with seen := insert key acc.seen, yInt := acc.yInt ++ [p] }
    | .extC => { acc with seen := insert key acc.seen, ext := acc.ext ++ [p] }
    | .interC => { acc with seen := insert key acc.seen, inter := acc.inter ++ [p] }

/-- `goldenExtremum`'s ratio `(Math.sqrt(5) - 1) / 2`. -/
noncomputable def goldenPhi : ℝ := (Real.sqrt 5 - 1) / 2

/-- JS `fc > fd` on possibly-NaN values: false unless both are finite. -/
noncomputable def optGTb (x y : Option ℝ) : Bool :=
  match x, y with
  | some a, some b => decide (b < a)
  | _, _ => false

/-- The golden-section loop (48 iterations), returning the final bracket. -/
noncomputable def goldenLoop (g : ℝ → Option ℝ) :
    Nat → ℝ → ℝ → ℝ → ℝ → Option ℝ → Option ℝ → ℝ × ℝ
  | 0, a, b, _, _, _, _ => (a, b)
  | n + 1, a, b, c, d, fc, fd =>
    if optGTb fc fd then
      let a2 := c
      let c2 := d
      let d2 := a2 + goldenPhi * (b - a2)
      goldenLoop g n a2 b c2 d2 fd (g d2)
    else
      let b2 := d
      let d2 := c
      let c2 := b2 - goldenPhi * (b2 - a)
      goldenLoop g n a b2 c2 d2 (g c2) fc

/-- `goldenExtremum(f, a, b, mode)`: minimize `f` (or `-f` for `"max"`),
return the midpoint of the final bracket with its value when finite. -/
noncomputable def goldenExtremum (f : ℝ → Option ℝ) (a b : ℝ) (mode : String) :
    Option (ℝ × ℝ) :=
  let g : ℝ → Option ℝ := if mode = "max" then (fun x => (f x).map Neg.neg) else f
  let c := b - goldenPhi * (b - a)
  let d := a + goldenPhi * (b - a)
  let fin := goldenLoop g 48 a b c d (g c) (g d)
  let x := (fin.1 + fin.2) / 2
  match f x with
  | some y => some (x, y)
  | none => none

/-- `N = Math.max(400, Math.round(width / pxStep * 1.5))`. -/
noncomputable def analysisN (width pxStep : ℝ) : ℕ :=
  max 400 (jsRound (width / pxStep * 1.5)).toNat

/-- Per-curve sample: NaN outside the domain restriction, else the stored
function. -/
noncomputable def sampleAt (e : CompiledLine) (v : Viewport) (x : ℝ) : Option ℝ :=
  let xmin := if e.entry.domainUse then max v.xMin e.entry.domainMin else v.xMin
  let xmax := if e.entry.domainUse then min v.xMax e.entry.domainMax else v.xMax
  if x < xmin ∨ x > xmax then none else applyFnOpt e x

/-- One x-intercept scan step at grid index `i` (adjacent pair `i-1, i`). -/
noncomputable def xIntercStep (e : CompiledLine) (xs : List ℝ)
    (ys : List (Option ℝ)) (acc : AAcc) (i : ℕ) : AAcc :=
  match ys.getD (i - 1) none, ys.getD i none with
  | some y0, some y1 =>
    if y0 = 0 ∨ y1 = 0 ∨ y0 * y1 < 0 then
      match bisectRoot (fun x => applyFnOpt e x) (xs.getD (i - 1) 0) (xs.getD i 0)
          (some y0) (some y1) with
      | some xr =>
        pushPt acc .xIntC
          { ptype := "x-int", x := xr, y := 0, color := e.entry.color,
            exprId := e.entry.id }
      | none => acc
    else acc
  | _, _ => acc

/-- The y-intercept probe: only when `x = 0` is inside the viewport and the
curve's domain. -/
noncomputable def yIntStep (e : CompiledLine) (v : Viewport) (acc : AAcc) : AAcc :=
  if v.xMin ≤ 0 ∧ 0 ≤ v.xMax then
    if !e.entry.domainUse || (decide (e.entry.domainMin ≤ 0) && decide ((0:ℝ) ≤ e.entry.domainMax)) then
      match applyFnOpt e 0 with
      | some y =>
        pushPt acc .yIntC
          { ptype := "y-int", x := 0, y := y, color := e.entry.color,
            exprId := e.entry.id }
      | none => acc
    else acc
  else acc

/-- One extremum scan step at grid index `i` (triple `i-1, i, i+1`), refined
by golden-section search over `[xs[i-1], xs[i+1]]`. -/
noncomputable def extremaStep (e : CompiledLine) (xs : List ℝ)
    (ys : List (Option ℝ)) (acc : AAcc) (i : ℕ) : AAcc :=
  match ys.getD (i - 1) none, ys.getD i none, ys.getD (i + 1) none with
  | some y0, some y1, some y2 =>
    if y1 > y0 ∧ y1 > y2 then
      match goldenExtremum (fun x => applyFnOpt e x) (xs.getD (i - 1) 0)
          (xs.getD (i + 1) 0) "max" with
      | some pt =>
        pushPt acc .extC
          { ptype := "max", x := pt.1, y := pt.2, color := e.entry.color,
            exprId := e.entry.id }
      | none => acc
    else if y1 < y0 ∧ y1 < y2 then
      match goldenExtremum (fun x => applyFnOpt e x) (xs.getD (i - 1) 0)
          (xs.getD (i + 1) 0) "min" with
      | some pt =>
        pushPt acc .extC
          { ptype := "min", x := pt.1, y := pt.2, color := e.entry.color,
            exprId := e.entry.id }
      | none => acc
    else acc
  | _, _, _ => acc

/-- The ordered pairs `(i, j)` with `i < j` of the nested intersection
loops. -/
def pairsUpper {α : Type} : List α → List (α × α)
  | [] => []
  | a :: rest => rest.map (fun b => (a, b)) ++ pairsUpper rest

/-- One intersection scan step for curves `A, B` at grid index `k`. -/
noncomputable def interStep (A B : CompiledLine) (grid : List ℝ)
    (acc : AAcc) (k : ℕ) : AAcc :=
  let f : ℝ → Option ℝ := fun x =>
    match applyFnOpt A x, applyFnOpt B x with
    | some p, some q => some (p - q)
    | _, _ => none
  let a := grid.getD (k - 1) 0
  let b := grid.getD k 0
  match f a, f b with
  | some ya, some yb =>
    if ya * yb > 0 then acc
    else
      match bisectRoot f a b (some ya) (some yb) with
      | none => acc
      | some x =>
        match applyFnOpt A x with
        | none => acc
        | some y =>
          pushPt acc .interC
            { ptype := "intersect", x := x, y := y, color := A.entry.color,
              exprId := A.entry.id, exprId2 := some B.entry.id }
  | _, _ => acc

/-- The analysis pass: per visible explicit curve, x-intercepts, the
y-intercept, then extrema; then pairwise intersections; `allPoints`
aggregates in that category order. -/
noncomputable def analysis (cs : List CompiledLine) (v : Viewport)
    (width pxStep : ℝ) : AnalysisResult :=
  let explicits := visibleExplicitFns cs
  if explicits.isEmpty then {}
  else
    let N := analysisN width pxStep
    let grid := (List.range (N + 1)).map
      (fun (i : ℕ) => v.xMin + ((i : ℝ) / (N : ℝ)) * (v.xMax - v.xMin))
    let acc1 := explicits.foldl
      (fun acc e =>
        let ys := grid.map (sampleAt e v)
        (List.range' 1 (N - 1)).foldl (extremaStep e grid ys)
          (yIntStep e v ((List.range' 1 N).foldl (xIntercStep e grid ys) acc)))
      {}
    let interCurves := explicits.filter (fun e => e.entry.includeIntersect)
    let acc2 := (pairsUpper interCurves).foldl
      (fun acc ab => (List.range' 1 N).foldl (interStep ab.1 ab.2 grid) acc)
      acc1
    { xIntercepts := acc2.xInt, yIntercepts := acc2.yInt, extrema := acc2.ext,
      intersections := acc2.inter,
      allPoints := acc2.xInt ++ acc2.yInt ++ acc2.ext ++ acc2.inter }

end Graphos

namespace Graphos

/-! ## The deduplication invariant -/

noncomputable def keysOf (l : List APoint) : List (ℤ × ℤ) :=
  l.map (fun p => mapKey p.x p.y)

/-- The keys of all retained points, in category order. -/
noncomputable def allKeys (acc : AAcc) : List (ℤ × ℤ) :=
  keysOf acc.xInt ++ keysOf acc.yInt ++ keysOf acc.ext ++ keysOf acc.inter

/-- Every retained point's key is registered in `seen`, and the aggregated
key list is duplicate-free. -/
noncomputable def accInv (acc : AAcc) : Prop :=
  (∀ k ∈ allKeys acc, k ∈ acc.seen) ∧ (allKeys acc).Nodup

lemma pushPt_perm (acc : AAcc) (cat : ACat) (p : APoint)
    (hk : mapKey p.x p.y ∉ acc.seen) :
    (allKeys (pushPt acc cat p)).Perm (mapKey p.x p.y :: allKeys acc) := by
  unfold pushPt
  dsimp only
  rw [if_neg hk]
  cases cat <;>
    simp only [allKeys, keysOf, List.map_append, List.map_cons, List.map_nil,
      List.append_assoc, List.singleton_append, List.append_nil]
  · exact List.perm_middle
  · exact (List.Perm.append_left _ List.perm_middle).trans List.perm_middle
  · exact (List.Perm.append_left _
      ((List.Perm.append_left _ List.perm_middle).trans List.perm_middle)).trans
      List.perm_middle
  · exact (List.Perm.append_left _
      ((List.Perm.append_left _
        ((List.Perm.append_left _ (List.perm_append_singleton _ _)).trans
          List.perm_middle)).trans List.perm_middle)).trans List.perm_middle

lemma pushPt_inv (acc : AAcc) (cat : ACat) (p : APoint) (h : accInv acc) :
    accInv (pushPt acc cat p) := by
  by_cases hk : mapKey p.x p.y ∈ acc.seen
  · have heq : pushPt acc cat p = acc := by
      unfold pushPt
      dsimp only
      rw [if_pos hk]
    rw [heq]
    exact h
  · have hperm := pushPt_perm acc cat p hk
    have hseen : (pushPt acc cat p).seen = insert (mapKey p.x p.y) acc.seen := by
      unfold pushPt
      dsimp only
      rw [if_neg hk]
      cases cat <;> rfl
    obtain ⟨hsub, hnd⟩ := h
    constructor
    · intro x hx
      rw [hseen]
      rcases List.mem_cons.mp (hperm.mem_iff.mp hx) with rfl | hold
      · exact Finset.mem_insert_self _ _
      · exact Finset.mem_insert_of_mem (hsub x hold)
    · exact hperm.nodup_iff.mpr
        (List.nodup_cons.mpr ⟨fun hm => hk (hsub _ hm), hnd⟩)

lemma foldl_acc_inv {β : Type} (f : AAcc → β → AAcc)
    (hf : ∀ acc b, accInv acc → accInv (f acc b)) :
    ∀ (l : List β) (acc : AAcc), accInv acc → accInv (l.foldl f acc) := by
  intro l
  induction l with
  | nil => intro acc h; exact h
  | cons b rest ih => intro acc h; exact ih _ (hf acc b h)

lemma xIntercStep_inv (e : CompiledLine) (xs : List ℝ) (ys : List (Option ℝ))
    (acc : AAcc) (i : ℕ) (h : accInv acc) : accInv (xIntercStep e xs ys acc i) := by
  unfold xIntercStep
  cases ys.getD (i - 1) none with
  | none => exact h
  | some y0 =>
    cases ys.getD i none with
    | none => exact h
    | some y1 =>
      dsimp only
      split
      · split
        · exact pushPt_inv _ _ _ h
        · exact h
      · exact h

lemma yIntStep_inv (e : CompiledLine) (v : Viewport) (acc : AAcc)
    (h : accInv acc) : accInv (yIntStep e v acc) := by
  unfold yIntStep
  split
  · split
    · split
      · exact pushPt_inv _ _ _ h
      · exact h
    · exact h
  · exact h

lemma extremaStep_inv (e : CompiledLine) (xs : List ℝ) (ys : List (Option ℝ))
    (acc : AAcc) (i : ℕ) (h : accInv acc) : accInv (extremaStep e xs ys acc i) := by
  unfold extremaStep
  cases ys.getD (i - 1) none with
  | none => exact h
  | some y0 =>
    cases ys.getD i none with
    | none => exact h
    | some y1 =>
      cases ys.getD (i + 1) none with
      | none => exact h
      | some y2 =>
        dsimp only
        split
        · split
          · exact pushPt_inv _ _ _ h
          · exact h
        · split
          · split
            · exact pushPt_inv _ _ _ h
            · exact h
          · exact h

lemma interStep_inv (A B : CompiledLine) (grid : List ℝ) (acc : AAcc) (k : ℕ)
    (h : accInv acc) : accInv (interStep A B grid acc k) := by
  unfold interStep
  dsimp only
  split
  · split
    · exact h
    · split
      · exact h
      · split
        · exact h
        · exact pushPt_inv _ _ _ h
  · exact h

/-- C8: in every analysis result, no two points of the aggregated list share
a key — rounding x and y to 6 decimal digits — because every category pushes
through the one shared `seen` set, first writer wins. -/
theorem claim_C8_analysis_dedup (cs : List CompiledLine) (v : Viewport)
    (width pxStep : ℝ) :
    ((analysis cs v width pxStep).allPoints.map (fun p => mapKey p.x p.y)).Nodup := by
  unfold analysis
  dsimp only
  split
  · simp
  · have h0 : accInv {} := by
      have he : allKeys ({} : AAcc) = [] := rfl
      constructor
      · intro k hk
        rw [he] at hk
        exact absurd hk (List.not_mem_nil k)
      · rw [he]
        exact List.nodup_nil
    have h1 : accInv ((visibleExplicitFns cs).foldl
        (fun acc e =>
          let ys := ((List.range (analysisN width pxStep + 1)).map
            (fun (i : ℕ) => v.xMin + ((i : ℝ) / (analysisN width pxStep : ℝ))
              * (v.xMax - v.xMin))).map (sampleAt e v)
          (List.range' 1 (analysisN width pxStep - 1)).foldl
            (extremaStep e ((List.range (analysisN width pxStep + 1)).map
              (fun (i : ℕ) => v.xMin + ((i : ℝ) / (analysisN width pxStep : ℝ))
                * (v.xMax - v.xMin))) ys)
            (yIntStep e v ((List.range' 1 (analysisN width pxStep)).foldl
              (xIntercStep e ((List.range (analysisN width pxStep + 1)).map
                (fun (i : ℕ) => v.xMin + ((i : ℝ) / (analysisN width pxStep : ℝ))
                  * (v.xMax - v.xMin))) ys) acc))) {}) := by
      refine foldl_acc_inv _ ?_ _ _ h0
      intro acc e hacc
      dsimp only
      refine foldl_acc_inv _ ?_ _ _ ?_
      · intro a b hb
        exact extremaStep_inv _ _ _ _ _ hb
      · refine yIntStep_inv _ _ _ ?_
        refine foldl_acc_inv _ ?_ _ _ hacc
        intro a b hb
        exact xIntercStep_inv _ _ _ _ _ hb
    have h2 := foldl_acc_inv
      (fun acc (ab : CompiledLine × CompiledLine) =>
        (List.range' 1 (analysisN width pxStep)).foldl
          (interStep ab.1 ab.2 ((List.range (analysisN width pxStep + 1)).map
            (fun (i : ℕ) => v.xMin + ((i : ℝ) / (analysisN width pxStep : ℝ))
              * (v.xMax - v.xMin)))) acc)
      (by
        intro acc ab hacc
        refine foldl_acc_inv _ ?_ _ _ hacc
        intro a k hk
        exact interStep_inv _ _ _ _ _ hk)
      (pairsUpper ((visibleExplicitFns cs).filter (fun e => e.entry.includeIntersect)))
      _ h1
    have h3 := h2.2
    simpa [allKeys, keysOf, List.map_append] using h3

end Graphos
